import Mathlib

/-!
Shallow embedding of the squirrel SQL-builder repository: the UNION chain
builder and CASE builder (src/unnamed/part_000, src/unnamed/part_001) and the
LATERAL join/from attachment operations (src/joins.go), together with the
minimal surrounding contracts (render contract, placeholder-format engine)
that those renderers consume.

Go conventions mapped to Lean: a Go `(string, []any, error)` triple is the
structure `GoResult`; a nil-able Go value is an `Option`; a Go `any` argument
slot is `Option GoVal` (`none` is Go `nil`).
-/

namespace squirrel

/-- Values that can be bound as SQL arguments (the concrete payloads of Go
`any` values used by the tests: ints and strings). -/
inductive GoVal where
  | vint : Int → GoVal
  | vstr : String → GoVal
deriving DecidableEq

/-- One bound argument slot: `none` is a Go `nil` (SQL NULL) argument. -/
abbrev Arg := Option GoVal

/-- The result triple of the Go render contract `ToSql() (string, []any, error)`. -/
structure GoResult where
  sql : String
  args : List Arg
  err : Option String
deriving DecidableEq

/-- Modelled from the spec (§4.2, §6): the enumerated placeholder-format
dialects {QuestionMark, DollarNumbered, ColonNumbered, AtNumbered}.  The
placeholder engine itself lives outside src/. -/
inductive PlaceholderFormat where
  | question
  | dollar
  | colon
  | atNum
deriving DecidableEq

/-- Number of neutral question-mark markers in a character list. -/
def countQ (l : List Char) : Nat := l.countP (fun c => c = '?')

/-- Modelled from the spec (§4.2): the ordinal rewrite scans left to right and
replaces the Nth neutral marker with the dialect marker followed by the
1-based ordinal N, leaving all other characters untouched (a lexical
replace-by-position, not a SQL-aware parse). -/
def replaceQFrom (mark : String) : List Char → Nat → List Char
  | [], _ => []
  | c :: cs, n =>
    if c = '?' then mark.data ++ (toString n).data ++ replaceQFrom mark cs (n + 1)
    else c :: replaceQFrom mark cs n

/-- Modelled from the spec (§4.2): the question-mark dialect is the identity
transform; ordinal dialects rewrite each neutral marker with its 1-based
ordinal.  The model is the tolerant policy: it rewrites exactly the markers it
finds and never fails. -/
def PlaceholderFormat.ReplacePlaceholders : PlaceholderFormat → String → String
  | .question, s => s
  | .dollar, s => ⟨replaceQFrom "$" s.data 1⟩
  | .colon, s => ⟨replaceQFrom ":" s.data 1⟩
  | .atNum, s => ⟨replaceQFrom "@" s.data 1⟩

/-- The `Sqlizer` interface of the repository, abstracted for embedding as a
child fragment.  A fragment is characterized by what the parent renderers
consume: its `ToSql` result, plus (for the type switch in
`forceQuestionPlaceholders`, src/joins.go) its concrete builder type and, when
the type has a placeholder-format concept, its currently set format.
`sel` is a SELECT statement builder (neutral body text plus its args, with its
currently configured placeholder format, applied when it renders itself);
`cte` is the common-table-expressions builder, modelled the same way;
`unionB` is a UNION chain builder embedded as a child, abstracted by its
placeholder-format field and overall render result;
`frag` is any other fragment (raw expression, Part, CASE builder, ...),
abstracted by its render result. -/
inductive Sqlizer where
  | sel (fmt : PlaceholderFormat) (body : String) (args : List Arg)
  | cte (fmt : PlaceholderFormat) (body : String) (args : List Arg)
  | unionB (fmt : Option PlaceholderFormat) (res : GoResult)
  | frag (res : GoResult)
deriving DecidableEq

/-- Render contract: a statement builder renders its neutral body through its
own placeholder format; an abstracted fragment returns its recorded result. -/
def Sqlizer.toSql : Sqlizer → GoResult
  | .sel fmt body args => ⟨fmt.ReplacePlaceholders body, args, none⟩
  | .cte fmt body args => ⟨fmt.ReplacePlaceholders body, args, none⟩
  | .unionB _ res => res
  | .frag res => res

/-- Whether the fragment's builder type exposes a placeholder-format setter
(SelectBuilder, CommonTableExpressionsBuilder and UnionBuilder all do;
raw expressions and Parts do not). -/
def Sqlizer.hasPlaceholderFormatConcept : Sqlizer → Bool
  | .sel _ _ _ => true
  | .cte _ _ _ => true
  | .unionB _ _ => true
  | .frag _ => false

/-- The placeholder format currently configured on the fragment, when its type
has one. -/
def Sqlizer.currentPlaceholderFormat : Sqlizer → Option PlaceholderFormat
  | .sel fmt _ _ => some fmt
  | .cte fmt _ _ => some fmt
  | .unionB fmt _ => fmt
  | .frag _ => none

/-- Modelled from the spec (§4.1): rendering a nested fragment goes through
the uniform render contract. -/
def nestedToSql (s : Sqlizer) : GoResult := s.toSql

/-- src/joins.go `forceQuestionPlaceholders`: a type switch that forces the
two recognized statement-builder types to the question format and leaves every
other fragment unchanged. -/
def forceQuestionPlaceholders : Sqlizer → Sqlizer
  | .sel _ body args => .sel .question body args
  | .cte _ body args => .cte .question body args
  | s => s

/-- Whitespace in the sense of `strings.Fields` (the ASCII space characters). -/
def isSpaceChar (c : Char) : Bool :=
  c = ' ' || c = '\t' || c = '\n' || c = '\r' || c = '\x0b' || c = '\x0c'

/-- Accumulator pass of `strings.Fields`: splits a character list into its
maximal whitespace-free runs, dropping the whitespace. -/
def fieldsAux : List Char → List Char → List (List Char)
  | [], acc => if acc.isEmpty then [] else [acc.reverse]
  | c :: cs, acc =>
    if isSpaceChar c then
      if acc.isEmpty then fieldsAux cs [] else acc.reverse :: fieldsAux cs []
    else fieldsAux cs (c :: acc)

/-- `strings.Join(fields, " ")`: interleave the runs with single spaces. -/
def joinSpace : List (List Char) → List Char
  | [] => []
  | [f] => f
  | f :: g :: rest => f ++ ' ' :: joinSpace (g :: rest)

/-- src/unnamed/part_000 `compactSQL`: collapses all whitespace into single
spaces via `strings.Join(strings.Fields(s), " ")`. -/
def compactSQL (s : String) : String := ⟨joinSpace (fieldsAux s.data [])⟩

/-- src/unnamed/part_000 `unionOp` constant `unionDistinct`. -/
def unionDistinct : String := "UNION"

/-- src/unnamed/part_000 `unionOp` constant `unionAll`. -/
def unionAllOp : String := "UNION ALL"

/-- src/unnamed/part_000 `unionPart`: one union segment, the combining
operator (empty for segment 0) and the embedded statement. -/
structure unionPart where
  op : String
  query : Sqlizer
deriving DecidableEq

/-- src/unnamed/part_000 `unionData`: the internal state carried by the union
builder.  Go's `uint64` limit/offset values are modelled as `Nat`. -/
structure unionData where
  PlaceholderFormat : Option PlaceholderFormat
  Parts : List unionPart
  OrderBy : List String
  LimitSet : Bool
  Limit : Nat
  OffsetSet : Bool
  Offset : Nat
  Suffixes : List Sqlizer
  CompactOutput : Bool
deriving DecidableEq

/-- The zero value that `builder.Register(UnionBuilder{}, unionData{})`
starts every union builder from. -/
def emptyUnionData : unionData := ⟨none, [], [], false, 0, false, 0, [], false⟩

/-- The body loop of `unionData.toSql` (src/unnamed/part_000 lines 219-233):
renders each segment in order, wrapping a failing segment's error with its
index, writing ` <op> ` before every segment except segment 0 and the
parenthesized statement for all of them, concatenating the argument lists. -/
def unionPartsLoop : List unionPart → Nat → Except String (String × List Arg)
  | [], _ => .ok ("", [])
  | p :: rest, i =>
    let r := p.query.toSql
    match r.err with
    | some e => .error ("squirrel: union subquery " ++ toString i ++ ": " ++ e)
    | none =>
      match unionPartsLoop rest (i + 1) with
      | .error e => .error e
      | .ok (s, args) =>
        .ok ((if i > 0 then " " ++ p.op ++ " " else "") ++ "(" ++ r.sql ++ ")" ++ s,
             r.args ++ args)

/-- Modelled from the spec (§6 suffix interface): the shared helper that
renders a list of fragments, sep-joined, into an already-built buffer,
returning the first child error.  Loop for the non-first elements. -/
def appendToSqlLoop : List Sqlizer → String → String → List Arg →
    Except String (String × List Arg)
  | [], buf, _, args => .ok (buf, args)
  | p :: rest, buf, sep, args =>
    let r := p.toSql
    match r.err with
    | some e => .error e
    | none => appendToSqlLoop rest (buf ++ sep ++ r.sql) sep (args ++ r.args)

/-- Modelled from the spec (§6 suffix interface): `appendToSql` — the first
fragment is written without a separator, the rest are sep-joined; arguments
are appended in order and the first child error halts the render. -/
def appendToSql : List Sqlizer → String → String → List Arg →
    Except String (String × List Arg)
  | [], buf, _, args => .ok (buf, args)
  | p :: rest, buf, sep, args =>
    let r := p.toSql
    match r.err with
    | some e => .error e
    | none => appendToSqlLoop rest (buf ++ r.sql) sep (args ++ r.args)

/-- src/unnamed/part_000 `unionData.toSql` (lines 210-274): zero segments is a
fatal error; otherwise the parenthesized segments are joined by their recorded
operators, the whole-union ORDER BY / LIMIT / OFFSET clauses and suffixes are
appended, the placeholder format (if set) is applied to the assembled text,
and the optional whitespace compaction runs last. -/
def unionData.toSql (d : unionData) : GoResult :=
  if d.Parts.length = 0 then
    ⟨"", [], some "squirrel: union requires at least one SELECT"⟩
  else
    match unionPartsLoop d.Parts 0 with
    | .error e => ⟨"", [], some e⟩
    | .ok (body, args) =>
      let s := body
      let s := if d.OrderBy.length > 0 then
          s ++ " ORDER BY " ++ String.intercalate ", " d.OrderBy else s
      let s := if d.LimitSet then s ++ " LIMIT " ++ toString d.Limit else s
      let s := if d.OffsetSet then s ++ " OFFSET " ++ toString d.Offset else s
      match (if d.Suffixes.length > 0 then appendToSql d.Suffixes (s ++ " ") " " args
             else .ok (s, args)) with
      | .error e => ⟨"", [], some e⟩
      | .ok (s, args) =>
        let s := match d.PlaceholderFormat with
          | some f => f.ReplacePlaceholders s
          | none => s
        let s := if d.CompactOutput then compactSQL s else s
        ⟨s, args, none⟩

/-- src/unnamed/part_000 `unionData.ToSql`. -/
def unionData.ToSql (d : unionData) : GoResult := d.toSql

/-- src/unnamed/part_000 `UnionBuilder`: the builder value wrapping the
attribute store that holds a `unionData`. -/
structure UnionBuilder where
  data : unionData
deriving DecidableEq

/-- src/unnamed/part_000 `Union` constructor: the first subquery gets no
leading operator, subsequent ones are recorded with `UNION`. -/
def Union (parts : List Sqlizer) : UnionBuilder :=
  ⟨{ emptyUnionData with
      Parts := match parts with
        | [] => []
        | p :: rest => ⟨"", p⟩ :: rest.map (fun q => ⟨unionDistinct, q⟩) }⟩

/-- src/unnamed/part_000 `UnionAll` constructor: the first subquery gets no
leading operator, subsequent ones are recorded with `UNION ALL`. -/
def UnionAll (parts : List Sqlizer) : UnionBuilder :=
  ⟨{ emptyUnionData with
      Parts := match parts with
        | [] => []
        | p :: rest => ⟨"", p⟩ :: rest.map (fun q => ⟨unionAllOp, q⟩) }⟩

/-- src/unnamed/part_000 `UnionBuilder.Union`: appends a segment carrying
`UNION`. -/
def UnionBuilder.Union (b : UnionBuilder) (q : Sqlizer) : UnionBuilder :=
  ⟨{ b.data with Parts := b.data.Parts ++ [⟨unionDistinct, q⟩] }⟩

/-- src/unnamed/part_000 `UnionBuilder.UnionAll`: appends a segment carrying
`UNION ALL`. -/
def UnionBuilder.UnionAll (b : UnionBuilder) (q : Sqlizer) : UnionBuilder :=
  ⟨{ b.data with Parts := b.data.Parts ++ [⟨unionAllOp, q⟩] }⟩

/-- src/unnamed/part_000 `UnionBuilder.OrderBy` (builder.Extend). -/
def UnionBuilder.OrderBy (b : UnionBuilder) (exprs : List String) : UnionBuilder :=
  ⟨{ b.data with OrderBy := b.data.OrderBy ++ exprs }⟩

/-- src/unnamed/part_000 `UnionBuilder.Limit`: sets the is-set flag and the
value. -/
def UnionBuilder.Limit (b : UnionBuilder) (n : Nat) : UnionBuilder :=
  ⟨{ b.data with LimitSet := true, Limit := n }⟩

/-- src/unnamed/part_000 `UnionBuilder.Offset`: sets the is-set flag and the
value. -/
def UnionBuilder.Offset (b : UnionBuilder) (n : Nat) : UnionBuilder :=
  ⟨{ b.data with OffsetSet := true, Offset := n }⟩

/-- src/unnamed/part_000 `UnionBuilder.Suffix` (builder.Extend). -/
def UnionBuilder.Suffix (b : UnionBuilder) (exprs : List Sqlizer) : UnionBuilder :=
  ⟨{ b.data with Suffixes := b.data.Suffixes ++ exprs }⟩

/-- src/unnamed/part_000 `UnionBuilder.PlaceholderFormat`. -/
def UnionBuilder.PlaceholderFormat (b : UnionBuilder) (f : PlaceholderFormat) :
    UnionBuilder :=
  ⟨{ b.data with PlaceholderFormat := some f }⟩

/-- src/unnamed/part_000 `UnionBuilder.Compact`. -/
def UnionBuilder.Compact (b : UnionBuilder) : UnionBuilder :=
  ⟨{ b.data with CompactOutput := true }⟩

/-- src/unnamed/part_000 `UnionBuilder.ToSql`. -/
def UnionBuilder.ToSql (b : UnionBuilder) : GoResult := b.data.ToSql

/-- src/joins.go `fromSelectLateralPart` (Go fields: sel, alias). -/
structure fromSelectLateralPart where
  sel : Sqlizer
  aliasName : String
deriving DecidableEq

/-- src/joins.go `fromSelectLateralPart.ToSql`: `LATERAL (<sub>) AS <alias>`
with the subquery's arguments; a child error is returned with no text and no
arguments. -/
def fromSelectLateralPart.ToSql (p : fromSelectLateralPart) : GoResult :=
  let sub := p.sel.toSql
  match sub.err with
  | some e => ⟨"", [], some e⟩
  | none => ⟨"LATERAL (" ++ sub.sql ++ ") AS " ++ p.aliasName, sub.args, none⟩

/-- src/joins.go `joinLateralSelectPart` (Go fields: joinType, sel, alias,
on — nil for CROSS JOIN). -/
structure joinLateralSelectPart where
  joinType : String
  sel : Sqlizer
  aliasName : String
  onCond : Option Sqlizer
deriving DecidableEq

/-- src/joins.go `joinLateralSelectPart.ToSql`: emits
`<joinType> LATERAL (<sub>) AS <alias>`, and ` ON <cond>` exactly when the
on-condition is non-nil, appending the condition's arguments after the
subquery's; either child's error is returned with no text and no arguments. -/
def joinLateralSelectPart.ToSql (p : joinLateralSelectPart) : GoResult :=
  let sub := p.sel.toSql
  match sub.err with
  | some e => ⟨"", [], some e⟩
  | none =>
    let base := p.joinType ++ " LATERAL (" ++ sub.sql ++ ") AS " ++ p.aliasName
    match p.onCond with
    | none => ⟨base, sub.args, none⟩
    | some c =>
      let r := c.toSql
      match r.err with
      | some e => ⟨"", [], some e⟩
      | none => ⟨base ++ " ON " ++ r.sql, sub.args ++ r.args, none⟩

/-- Minimal model of the SELECT builder state: only the two attribute-store
fields the lateral attachment operations of src/joins.go touch
(`builder.Set(b, "From", ...)` and `builder.Append(b, "Joins", ...)`).  The
rest of the SELECT builder is outside src/ and outside the claims. -/
structure SelectBuilder where
  From : Option fromSelectLateralPart
  Joins : List joinLateralSelectPart
deriving DecidableEq

/-- The zero-value SELECT builder state. -/
def emptySelectBuilder : SelectBuilder := ⟨none, []⟩

/-- src/joins.go `SelectBuilder.FromSelectLateral`: forces the subquery to
question placeholders and stores the FROM-position lateral part. -/
def SelectBuilder.FromSelectLateral (b : SelectBuilder) (sel : Sqlizer)
    (a : String) : SelectBuilder :=
  { b with From := some ⟨forceQuestionPlaceholders sel, a⟩ }

/-- src/joins.go `SelectBuilder.JoinLateralSelect`: forces the subquery to
question placeholders and appends a `JOIN`-keyword lateral part (the
on-condition is the caller's, possibly nil). -/
def SelectBuilder.JoinLateralSelect (b : SelectBuilder) (sel : Sqlizer)
    (a : String) (onC : Option Sqlizer) : SelectBuilder :=
  { b with Joins := b.Joins ++ [⟨"JOIN", forceQuestionPlaceholders sel, a, onC⟩] }

/-- src/joins.go `SelectBuilder.LeftJoinLateralSelect`. -/
def SelectBuilder.LeftJoinLateralSelect (b : SelectBuilder) (sel : Sqlizer)
    (a : String) (onC : Option Sqlizer) : SelectBuilder :=
  { b with Joins := b.Joins ++ [⟨"LEFT JOIN", forceQuestionPlaceholders sel, a, onC⟩] }

/-- src/joins.go `SelectBuilder.CrossJoinLateralSelect`: no on-condition slot;
the stored part's on-condition is always nil. -/
def SelectBuilder.CrossJoinLateralSelect (b : SelectBuilder) (sel : Sqlizer)
    (a : String) : SelectBuilder :=
  { b with Joins := b.Joins ++ [⟨"CROSS JOIN", forceQuestionPlaceholders sel, a, none⟩] }

/-- A Go `any` value as accepted by the CASE builder API: a fragment, a
non-nil scalar, or nil. -/
inductive GoAny where
  | sqlizer (s : Sqlizer)
  | value (v : GoVal)
  | nil
deriving DecidableEq

/-- Modelled from the spec (§3 Part): the generic wrapper over an `any` call
argument.  A fragment renders through the render contract; a raw string
scalar renders as its own text with no arguments; any other scalar is a
render-time error; nil renders as empty text. -/
def newPart : GoAny → Sqlizer
  | .sqlizer s => s
  | .value (.vstr s) => .frag ⟨s, [], none⟩
  | .value _ => .frag ⟨"", [], some "expected string or Sqlizer"⟩
  | .nil => .frag ⟨"", [], none⟩

/-- Modelled from the spec (§4.2 neutral placeholder): `Placeholders n` is n
question-mark markers joined by commas. -/
def Placeholders (n : Nat) : String :=
  String.intercalate "," (List.replicate n "?")

/-- src/unnamed/part_001 `whenPart` (Go fields: when, then, thenValue,
nullThen; `then` is rendered here as `thenSq`). -/
structure whenPart where
  when : Sqlizer
  thenSq : Option Sqlizer
  thenValue : Option GoVal
  nullThen : Bool
deriving DecidableEq

/-- src/unnamed/part_001 `newWhenPart`: a Sqlizer `then` is stored as a
fragment, nil sets the explicit-null marker, any other value is stored as the
literal then-value. -/
def newWhenPart (whenA thenA : GoAny) : whenPart :=
  match thenA with
  | .sqlizer _ => ⟨newPart whenA, some (newPart thenA), none, false⟩
  | .nil => ⟨newPart whenA, none, none, true⟩
  | .value v => ⟨newPart whenA, none, some v, false⟩

/-- src/unnamed/part_001 `caseData` (Go fields: What, WhenParts, Else,
ElseValue, ElseNull). -/
structure caseData where
  What : Option Sqlizer
  WhenParts : List whenPart
  Else : Option Sqlizer
  ElseValue : Option GoVal
  ElseNull : Bool
deriving DecidableEq

/-- The zero value that `builder.Register(CaseBuilder{}, caseData{})` starts
every CASE builder from. -/
def emptyCaseData : caseData := ⟨none, [], none, none, false⟩

/-- src/unnamed/part_001 `sqlizerBuffer`: a buffer plus accumulated args plus
a latched first error. -/
structure sqlizerBuffer where
  buf : String
  args : List Arg
  err : Option String
deriving DecidableEq

/-- src/unnamed/part_001: the embedded `bytes.Buffer.WriteString` — a plain,
ungated buffer write. -/
def sqlizerBuffer.WriteString (b : sqlizerBuffer) (s : String) : sqlizerBuffer :=
  { b with buf := b.buf ++ s }

/-- src/unnamed/part_001 `sqlizerBuffer.WriteSql`: a no-op once an error is
latched; otherwise renders the fragment, latching its error, or writes its
text plus a trailing space and appends its arguments. -/
def sqlizerBuffer.WriteSql (b : sqlizerBuffer) (item : Sqlizer) : sqlizerBuffer :=
  match b.err with
  | some _ => b
  | none =>
    let r := nestedToSql item
    match r.err with
    | some e => { b with err := some e }
    | none => { b with buf := b.buf ++ r.sql ++ " ", args := b.args ++ r.args }

/-- The WHEN/THEN loop of `caseData.ToSql` (src/unnamed/part_001 lines
96-112): for each part writes `WHEN `, the when-fragment, checks the
missing-THEN invariant (an immediate error return), writes `THEN ` and then
either the then-fragment or one neutral placeholder binding the then-value
(the value branch also covers the explicit-null marker, binding nil). -/
def caseWhenLoop : sqlizerBuffer → List whenPart → Except String sqlizerBuffer
  | b, [] => .ok b
  | b, p :: rest =>
    let b := b.WriteString "WHEN "
    let b := b.WriteSql p.when
    if p.thenSq.isNone && p.thenValue.isNone && !p.nullThen then
      .error "When clause must have Then part"
    else
      let b := b.WriteString "THEN "
      let b := match p.thenSq with
        | some t => b.WriteSql t
        | none => { b with buf := b.buf ++ (Placeholders 1 ++ " "),
                           args := b.args ++ [p.thenValue] }
      caseWhenLoop b rest

/-- src/unnamed/part_001 `caseData.ToSql` (lines 84-128): zero WHEN parts is a
fatal error; otherwise writes `CASE `, the optional operand, the WHEN/THEN
pairs, then `ELSE ` followed by the else-fragment or one placeholder binding
`ElseValue` whenever any ELSE variant is set, then `END`, finally returning
the buffer's text, args and latched error. -/
def caseData.ToSql (d : caseData) : GoResult :=
  if d.WhenParts.length = 0 then
    ⟨"", [], some "case expression must contain at lease one WHEN clause"⟩
  else
    let b : sqlizerBuffer := ⟨"", [], none⟩
    let b := b.WriteString "CASE "
    let b := match d.What with
      | some w => b.WriteSql w
      | none => b
    match caseWhenLoop b d.WhenParts with
    | .error e => ⟨"", [], some e⟩
    | .ok b =>
      let b := if d.Else.isSome || d.ElseValue.isSome || d.ElseNull then
          b.WriteString "ELSE " else b
      let b := match d.Else with
        | some el => b.WriteSql el
        | none =>
          if d.ElseValue.isSome || d.ElseNull then
            { b with buf := b.buf ++ (Placeholders 1 ++ " "),
                     args := b.args ++ [d.ElseValue] }
          else b
      let b := b.WriteString "END"
      ⟨b.buf, b.args, b.err⟩

/-- src/unnamed/part_001 `CaseBuilder`: the builder value wrapping the
attribute store that holds a `caseData`. -/
structure CaseBuilder where
  data : caseData
deriving DecidableEq

/-- src/unnamed/part_001 `CaseBuilder.ToSql`. -/
def CaseBuilder.ToSql (b : CaseBuilder) : GoResult := b.data.ToSql

/-- src/unnamed/part_001 `CaseBuilder.what` (builder.Set "What"). -/
def CaseBuilder.what (b : CaseBuilder) (e : GoAny) : CaseBuilder :=
  ⟨{ b.data with What := some (newPart e) }⟩

/-- src/unnamed/part_001 `CaseBuilder.When` (builder.Append "WhenParts"). -/
def CaseBuilder.When (b : CaseBuilder) (whenA thenA : GoAny) : CaseBuilder :=
  ⟨{ b.data with WhenParts := b.data.WhenParts ++ [newWhenPart whenA thenA] }⟩

/-- src/unnamed/part_001 `CaseBuilder.Else`: a fragment is stored in `Else`,
nil sets only the `ElseNull` flag, any other value is stored only in
`ElseValue`; no variant clears the others. -/
def CaseBuilder.Else (b : CaseBuilder) (e : GoAny) : CaseBuilder :=
  match e with
  | .sqlizer _ => ⟨{ b.data with Else := some (newPart e) }⟩
  | .nil => ⟨{ b.data with ElseNull := true }⟩
  | .value v => ⟨{ b.data with ElseValue := some v }⟩

/-- Whether `pat` occurs as a contiguous segment of `s`. -/
def segIn (pat : List Char) : List Char → Bool
  | [] => pat.isEmpty
  | c :: t => pat.isPrefixOf (c :: t) || segIn pat t

/-- Proposition form of contiguous-segment occurrence (decidable by
computation). -/
abbrev OccursIn (pat s : List Char) : Prop := segIn pat s = true

/-- The string `s` contains the keyword `kw` as a contiguous substring. -/
abbrev containsStr (s kw : String) : Prop := OccursIn kw.data s.data

/-- Concatenation of a list of strings (no separator). -/
def sjoin : List String → String
  | [] => ""
  | s :: rest => s ++ sjoin rest

/-- Claim-level characterization of one non-initial union segment's emitted
text: a space, the operator recorded on the segment itself, a space, and the
rendered statement in parentheses. -/
def segChunk (p : unionPart) : String :=
  " " ++ p.op ++ " " ++ "(" ++ (p.query.toSql).sql ++ ")"

/-- Claim-level characterization of the union body: segment 0's rendered
statement in parentheses with no leading operator, then each subsequent
segment's chunk. -/
def unionBodyText : List unionPart → String
  | [] => ""
  | p :: rest => "(" ++ (p.query.toSql).sql ++ ")" ++ sjoin (rest.map segChunk)

/-- The concatenation of the segments' argument lists, in segment order. -/
def unionBodyArgs (l : List unionPart) : List Arg :=
  (l.map (fun p => (p.query.toSql).args)).flatten

/-- The whole-union ORDER BY clause text (empty when no expressions). -/
def orderClause (d : unionData) : String :=
  if d.OrderBy.length > 0 then " ORDER BY " ++ String.intercalate ", " d.OrderBy else ""

/-- The whole-union LIMIT clause text (empty when the is-set flag is off). -/
def limitClause (d : unionData) : String :=
  if d.LimitSet then " LIMIT " ++ toString d.Limit else ""

/-- The whole-union OFFSET clause text (empty when the is-set flag is off). -/
def offsetClause (d : unionData) : String :=
  if d.OffsetSet then " OFFSET " ++ toString d.Offset else ""

/-- The WHEN part carries a THEN in one of its three forms. -/
def hasThenB (p : whenPart) : Bool :=
  p.thenSq.isSome || p.thenValue.isSome || p.nullThen

/-- All fragments of the WHEN part render without error, and a THEN form is
present. -/
def whenOkB (p : whenPart) : Bool :=
  ((nestedToSql p.when).err == none) &&
  (match p.thenSq with
   | some t => (nestedToSql t).err == none
   | none => true) &&
  hasThenB p

/-- The optional CASE operand renders without error when present. -/
def whatOkB (d : caseData) : Bool :=
  match d.What with
  | some w => (nestedToSql w).err == none
  | none => true

/-- Claim-level characterization of one WHEN/THEN pair's emitted text. -/
def whenChunk (p : whenPart) : String :=
  "WHEN " ++ (nestedToSql p.when).sql ++ " " ++ "THEN " ++
    (match p.thenSq with
     | some t => (nestedToSql t).sql ++ " "
     | none => "? ")

/-- The arguments one WHEN/THEN pair contributes, in emission order. -/
def whenArgsOf (p : whenPart) : List Arg :=
  (nestedToSql p.when).args ++
    (match p.thenSq with
     | some t => (nestedToSql t).args
     | none => [p.thenValue])

/-- The emitted text of the optional CASE operand. -/
def whatChunk (d : caseData) : String :=
  match d.What with
  | none => ""
  | some w => (nestedToSql w).sql ++ " "

/-- The arguments the optional CASE operand contributes. -/
def whatArgsOf (d : caseData) : List Arg :=
  match d.What with
  | none => []
  | some w => (nestedToSql w).args

/-- The rendered texts of all child fragments a CASE statement embeds ahead
of its ELSE position (operand, when-fragments, then-fragments). -/
def caseChildTexts (d : caseData) : List String :=
  (match d.What with
   | none => []
   | some w => [(nestedToSql w).sql]) ++
  d.WhenParts.map (fun p => (nestedToSql p.when).sql) ++
  d.WhenParts.filterMap (fun p => p.thenSq.map (fun t => (nestedToSql t).sql))

/-- Non-whitespace content filter. -/
def filterNS (l : List Char) : List Char := l.filter (fun c => !isSpaceChar c)

/-- No two adjacent characters are both whitespace. -/
def noDoubleSpace : List Char → Bool
  | [] => true
  | [_] => true
  | a :: b :: t => (!(isSpaceChar a && isSpaceChar b)) && noDoubleSpace (b :: t)

/-- A UNION builder carrying a dollar placeholder format, embedded as a child
fragment: a fragment type with a placeholder-format concept that the type
switch of `forceQuestionPlaceholders` does not recognize. -/
def dollarUnionFrag : Sqlizer :=
  Sqlizer.unionB (some PlaceholderFormat.dollar)
    ⟨"SELECT a FROM t WHERE x = $1", [some (GoVal.vint 7)], none⟩

/-! Toolkit lemmas about substring occurrence. -/

theorem occursIn_iff (pat : List Char) (s : List Char) :
    OccursIn pat s ↔ ∃ l r, s = l ++ pat ++ r := by
  induction s with
  | nil =>
    simp only [OccursIn, segIn, List.isEmpty_iff]
    constructor
    · rintro rfl
      exact ⟨[], [], rfl⟩
    · rintro ⟨l, r, h⟩
      have h' := h.symm
      simp only [List.append_eq_nil] at h'
      exact h'.1.2
  | cons c t ih =>
    simp only [OccursIn, segIn, Bool.or_eq_true, List.isPrefixOf_iff_prefix]
    constructor
    · rintro (hp | ht)
      · obtain ⟨r, hr⟩ := hp
        exact ⟨[], r, by simp [hr]⟩
      · obtain ⟨l, r, hl⟩ := ih.1 ht
        exact ⟨c :: l, r, by simp [hl]⟩
    · rintro ⟨l, r, h⟩
      cases l with
      | nil =>
        left
        exact ⟨r, by simpa using h.symm⟩
      | cons x l' =>
        right
        apply ih.2
        refine ⟨l', r, ?_⟩
        have h' := h
        simp only [List.cons_append] at h'
        injection h' with h1 h2

theorem occursIn_append_split {pat a b : List Char} (h : OccursIn pat (a ++ b)) :
    OccursIn pat a ∨ OccursIn pat b ∨
      ((∃ c, a.getLast? = some c ∧ c ∈ pat) ∧ (∃ c, b.head? = some c ∧ c ∈ pat)) := by
  rw [occursIn_iff] at h
  obtain ⟨l, r, h⟩ := h
  by_cases h1 : l.length + pat.length ≤ a.length
  · left
    rw [occursIn_iff]
    have ha := List.take_left a b
    rw [h, List.take_append_eq_append_take,
      List.take_of_length_le (by simp [List.length_append]; omega)] at ha
    exact ⟨l, r.take (a.length - (l ++ pat).length), ha.symm⟩
  · by_cases h2 : a.length ≤ l.length
    · right; left
      rw [occursIn_iff]
      have hb := List.drop_left a b
      rw [h, List.drop_append_eq_append_drop, List.drop_append_eq_append_drop,
        Nat.sub_eq_zero_of_le h2, List.drop_zero] at hb
      have hz : a.length - (l ++ pat).length = 0 := by
        simp [List.length_append]; omega
      rw [hz, List.drop_zero] at hb
      exact ⟨l.drop a.length, r, hb.symm⟩
    · right; right
      push_neg at h1 h2
      have hla : l.length ≤ a.length := le_of_lt h2
      have hd : a.drop l.length ++ b = pat ++ r := by
        have hstep : (a ++ b).drop l.length = (l ++ (pat ++ r)).drop l.length := by
          rw [← List.append_assoc, h]
        rwa [List.drop_append_eq_append_drop, Nat.sub_eq_zero_of_le hla,
          List.drop_zero, List.drop_left] at hstep
      have hdlen : (a.drop l.length).length < pat.length := by
        rw [List.length_drop]; omega
      have hdne : a.drop l.length ≠ [] := by
        intro hnil
        have hlen := congrArg List.length hnil
        rw [List.length_drop] at hlen
        simp at hlen
        omega
      have hdpat : a.drop l.length = pat.take (a.drop l.length).length := by
        have hstep := List.take_left (a.drop l.length) b
        rw [hd, List.take_append_eq_append_take,
          Nat.sub_eq_zero_of_le (le_of_lt hdlen), List.take_zero,
          List.append_nil] at hstep
        exact hstep.symm
      obtain ⟨x, hx⟩ : ∃ x, (a.drop l.length).getLast? = some x := by
        cases hgl : (a.drop l.length).getLast? with
        | none => exact absurd (List.getLast?_eq_none_iff.mp hgl) hdne
        | some y => exact ⟨y, rfl⟩
      constructor
      · refine ⟨x, ?_, ?_⟩
        · have hsplit : a.getLast? = (a.drop l.length).getLast? := by
            conv_lhs => rw [← List.take_append_drop l.length a]
            rw [List.getLast?_append, hx, Option.or_some]
          rw [hsplit, hx]
        · have hmem : x ∈ a.drop l.length :=
            List.mem_of_mem_getLast? (Option.mem_def.mpr hx)
          exact (hdpat ▸ List.take_prefix _ pat).subset hmem
      · have hbr : b = pat.drop (a.drop l.length).length ++ r := by
          have hstep := List.drop_left (a.drop l.length) b
          rw [hd, List.drop_append_eq_append_drop,
            Nat.sub_eq_zero_of_le (le_of_lt hdlen), List.drop_zero] at hstep
          exact hstep.symm
        have hpne : pat.drop (a.drop l.length).length ≠ [] := by
          intro hnil
          have hlen := congrArg List.length hnil
          rw [List.length_drop] at hlen
          simp at hlen
          omega
        obtain ⟨y, hy⟩ : ∃ y, (pat.drop (a.drop l.length).length).head? = some y := by
          cases hhd : (pat.drop (a.drop l.length).length).head? with
          | none => exact absurd (List.head?_eq_none_iff.mp hhd) hpne
          | some z => exact ⟨z, rfl⟩
        refine ⟨y, ?_, ?_⟩
        · rw [hbr, List.head?_append, hy, Option.or_some]
        · exact (List.drop_suffix _ _).subset
            (List.mem_of_mem_head? (Option.mem_def.mpr hy))

theorem not_containsStr_append_left {a b kw : String}
    (ha : ∀ c, a.data.getLast? = some c → c ∉ kw.data)
    (h1 : ¬ containsStr a kw) (h2 : ¬ containsStr b kw) :
    ¬ containsStr (a ++ b) kw := by
  intro h
  rw [containsStr, String.data_append] at h
  rcases occursIn_append_split h with h | h | ⟨⟨c, hc, hm⟩, _⟩
  · exact h1 h
  · exact h2 h
  · exact ha c hc hm

theorem not_containsStr_append_right {a b kw : String}
    (hb : ∀ c, b.data.head? = some c → c ∉ kw.data)
    (h1 : ¬ containsStr a kw) (h2 : ¬ containsStr b kw) :
    ¬ containsStr (a ++ b) kw := by
  intro h
  rw [containsStr, String.data_append] at h
  rcases occursIn_append_split h with h | h | ⟨_, ⟨c, hc, hm⟩⟩
  · exact h1 h
  · exact h2 h
  · exact hb c hc hm

/-- The string ends with a space character if it ends at all. -/
def endsSpC (s : String) : Prop := ∀ c, s.data.getLast? = some c → c = ' '

theorem endsSpC_append {a b : String} (ha : endsSpC a) (hb : endsSpC b) :
    endsSpC (a ++ b) := by
  intro c hc
  rw [String.data_append, List.getLast?_append] at hc
  cases hbl : b.data.getLast? with
  | none => rw [hbl] at hc; exact ha c hc
  | some x => rw [hbl] at hc; cases hc; exact hb _ hbl

theorem endsSpC_append_space (a : String) : endsSpC (a ++ " ") := by
  intro c hc
  rw [String.data_append] at hc
  have : (" " : String).data = [' '] := rfl
  rw [this, List.getLast?_concat] at hc
  cases hc; rfl

theorem not_containsStr_append_sp {a b kw : String} (hsp : ' ' ∉ kw.data)
    (ha : endsSpC a) (h1 : ¬ containsStr a kw) (h2 : ¬ containsStr b kw) :
    ¬ containsStr (a ++ b) kw :=
  not_containsStr_append_left (fun c hc hm => hsp (ha c hc ▸ hm)) h1 h2

/-! Toolkit lemmas about `compactSQL` (fields / join-with-single-spaces). -/

/-- Each run produced by `fieldsAux` is non-empty and whitespace-free. -/
theorem fieldsAux_ok : ∀ (l acc : List Char), (∀ c ∈ acc, isSpaceChar c = false) →
    ∀ f ∈ fieldsAux l acc, f ≠ [] ∧ ∀ c ∈ f, isSpaceChar c = false := by
  intro l
  induction l with
  | nil =>
    intro acc hacc f hf
    unfold fieldsAux at hf
    by_cases he : acc.isEmpty
    · simp [he] at hf
    · simp [he] at hf
      subst hf
      refine ⟨by simpa using fun h => he (by simp [h, List.isEmpty_iff]), ?_⟩
      intro c hc
      exact hacc c (by simpa using hc)
  | cons c cs ih =>
    intro acc hacc f hf
    unfold fieldsAux at hf
    by_cases hs : isSpaceChar c
    · simp only [hs, if_true] at hf
      by_cases he : acc.isEmpty
      · simp only [he, if_true] at hf
        exact ih [] (by simp) f hf
      · simp only [he, if_false] at hf
        rcases List.mem_cons.mp hf with hf | hf
        · subst hf
          refine ⟨by simpa using fun h => he (by simp [h, List.isEmpty_iff]), ?_⟩
          intro x hx
          exact hacc x (by simpa using hx)
        · exact ih [] (by simp) f hf
    · simp only [hs, if_false] at hf
      refine ih (c :: acc) ?_ f hf
      intro x hx
      rcases List.mem_cons.mp hx with hx | hx
      · subst hx; simpa using hs
      · exact hacc x hx

/-- Scanning a whitespace-free run just accumulates it (reversed). -/
theorem fieldsAux_run : ∀ (f l acc : List Char), (∀ c ∈ f, isSpaceChar c = false) →
    fieldsAux (f ++ l) acc = fieldsAux l (f.reverse ++ acc) := by
  intro f
  induction f with
  | nil => intro l acc _; simp
  | cons c f' ih =>
    intro l acc hf
    have hc : isSpaceChar c = false := hf c (by simp)
    have h1 : fieldsAux ((c :: f') ++ l) acc = fieldsAux (f' ++ l) (c :: acc) := by
      show fieldsAux (c :: (f' ++ l)) acc = _
      simp only [fieldsAux, hc]
      simp
    rw [h1, ih l (c :: acc) (fun x hx => hf x (by simp [hx])),
      List.reverse_cons, List.append_assoc]
    rfl

/-- Splitting the single-space join of good runs recovers exactly the runs. -/
theorem fieldsAux_joinSpace : ∀ (fl : List (List Char)),
    (∀ f ∈ fl, f ≠ [] ∧ ∀ c ∈ f, isSpaceChar c = false) →
    fieldsAux (joinSpace fl) [] = fl := by
  intro fl
  induction fl with
  | nil => intro _; simp [joinSpace, fieldsAux]
  | cons f rest ih =>
    intro hok
    obtain ⟨hfne, hfns⟩ := hok f (by simp)
    cases rest with
    | nil =>
      show fieldsAux f [] = [f]
      have : f = f ++ [] := by simp
      rw [this, fieldsAux_run f [] [] hfns]
      unfold fieldsAux
      have : (f.reverse ++ []).isEmpty = false := by
        simp [List.isEmpty_iff, hfne]
      rw [this]
      simp
    | cons g rest' =>
      show fieldsAux (f ++ ' ' :: joinSpace (g :: rest')) [] = f :: g :: rest'
      rw [fieldsAux_run f _ [] hfns]
      show fieldsAux (' ' :: joinSpace (g :: rest')) (f.reverse ++ []) = _
      unfold fieldsAux
      have hsp : isSpaceChar ' ' = true := rfl
      rw [hsp]
      have hne : (f.reverse ++ []).isEmpty = false := by
        simp [List.isEmpty_iff, hfne]
      simp only [if_true, hne, Bool.false_eq_true, if_false]
      rw [ih (fun x hx => hok x (by simp [hx]))]
      simp

/-- `compactSQL` is idempotent. -/
theorem compactSQL_idem (s : String) : compactSQL (compactSQL s) = compactSQL s := by
  apply String.ext
  show joinSpace (fieldsAux (joinSpace (fieldsAux s.data [])) []) =
    joinSpace (fieldsAux s.data [])
  rw [fieldsAux_joinSpace _ (fieldsAux_ok s.data [] (by simp))]

theorem filterNS_of_ok {x : List Char} (hx : ∀ c ∈ x, isSpaceChar c = false) :
    filterNS x = x := by
  apply List.filter_eq_self.mpr
  intro a ha
  simp [hx a ha]

theorem filterNS_joinSpace_cons (x : List Char) (fl : List (List Char)) :
    filterNS (joinSpace (x :: fl)) = filterNS x ++ filterNS (joinSpace fl) := by
  cases fl with
  | nil => simp [joinSpace, filterNS]
  | cons g rest =>
    show filterNS (x ++ ' ' :: joinSpace (g :: rest)) = _
    unfold filterNS
    rw [List.filter_append, List.filter_cons]
    simp [isSpaceChar]

/-- The compaction pass preserves non-whitespace content and order. -/
theorem filterNS_fieldsAux : ∀ (l acc : List Char),
    (∀ c ∈ acc, isSpaceChar c = false) →
    filterNS (joinSpace (fieldsAux l acc)) = acc.reverse ++ filterNS l := by
  intro l
  induction l with
  | nil =>
    intro acc hacc
    unfold fieldsAux
    by_cases he : acc.isEmpty
    · have : acc = [] := by simpa [List.isEmpty_iff] using he
      subst this
      simp [joinSpace, filterNS]
    · rw [if_neg he]
      show filterNS (joinSpace [acc.reverse]) = _
      have : joinSpace [acc.reverse] = acc.reverse := rfl
      rw [this, filterNS_of_ok (fun c hc => hacc c (by simpa using hc))]
      simp [filterNS]
  | cons c cs ih =>
    intro acc hacc
    unfold fieldsAux
    by_cases hs : isSpaceChar c
    · rw [if_pos hs]
      by_cases he : acc.isEmpty
      · rw [if_pos he]
        have hacc0 : acc = [] := by simpa [List.isEmpty_iff] using he
        subst hacc0
        rw [ih [] (by simp)]
        show filterNS cs = _
        unfold filterNS
        rw [List.filter_cons]
        simp [hs]
      · rw [if_neg he]
        rw [filterNS_joinSpace_cons, ih [] (by simp)]
        rw [filterNS_of_ok (fun x hx => hacc x (by simpa using hx))]
        show _ = acc.reverse ++ filterNS (c :: cs)
        unfold filterNS
        rw [List.filter_cons]
        simp [hs]
    · rw [if_neg hs]
      rw [ih (c :: acc) ?_]
      · show (c :: acc).reverse ++ filterNS cs = acc.reverse ++ filterNS (c :: cs)
        unfold filterNS
        rw [List.filter_cons]
        have hs' : isSpaceChar c = false := by simpa using hs
        simp [hs']
      · intro x hx
        rcases List.mem_cons.mp hx with hx | hx
        · subst hx; simpa using hs
        · exact hacc x hx

/-- Whitespace-free lists trivially satisfy the no-double-space property. -/
theorem noDoubleSpace_of_ok : ∀ (x : List Char),
    (∀ c ∈ x, isSpaceChar c = false) → noDoubleSpace x = true := by
  intro x
  induction x with
  | nil => intro _; rfl
  | cons a t ih =>
    intro h
    cases t with
    | nil => rfl
    | cons b t' =>
      show ((!(isSpaceChar a && isSpaceChar b)) && noDoubleSpace (b :: t')) = true
      rw [h a (by simp), ih (fun c hc => h c (by simp [hc]))]
      simp

/-- Prepending a whitespace-free run keeps the no-double-space property when
the junction is safe. -/
theorem noDoubleSpace_run_prepend : ∀ (f J : List Char),
    (∀ c ∈ f, isSpaceChar c = false) → noDoubleSpace (' ' :: J) = true →
    noDoubleSpace (f ++ ' ' :: J) = true := by
  intro f
  induction f with
  | nil => intro J _ hJ; simpa using hJ
  | cons a f' ih =>
    intro J hf hJ
    cases f' with
    | nil =>
      show ((!(isSpaceChar a && isSpaceChar ' ')) && noDoubleSpace (' ' :: J)) = true
      rw [hf a (by simp), hJ]
      rfl
    | cons b t =>
      show ((!(isSpaceChar a && isSpaceChar b)) &&
        noDoubleSpace ((b :: t) ++ ' ' :: J)) = true
      rw [hf a (by simp), ih J (fun c hc => hf c (by simp [hc])) hJ]
      rfl

/-- The head of a single-space join of good runs is not whitespace. -/
theorem joinSpace_head_ok (fl : List (List Char))
    (hok : ∀ f ∈ fl, f ≠ [] ∧ ∀ c ∈ f, isSpaceChar c = false) :
    ∀ c, (joinSpace fl).head? = some c → isSpaceChar c = false := by
  intro c hc
  cases fl with
  | nil => simp [joinSpace] at hc
  | cons f rest =>
    obtain ⟨hfne, hfns⟩ := hok f (by simp)
    have hcf : c ∈ f := by
      cases rest with
      | nil => exact List.mem_of_mem_head? (Option.mem_def.mpr hc)
      | cons g rest' =>
        have hc' : (f ++ ' ' :: joinSpace (g :: rest')).head? = some c := hc
        rw [List.head?_append] at hc'
        cases hf : f.head? with
        | none => exact absurd (List.head?_eq_none_iff.mp hf) hfne
        | some x =>
          rw [hf, Option.or_some] at hc'
          cases hc'
          exact List.mem_of_mem_head? (Option.mem_def.mpr hf)
    exact hfns c hcf

/-- The single-space join of good runs has no two adjacent whitespace
characters. -/
theorem noDoubleSpace_joinSpace : ∀ (fl : List (List Char)),
    (∀ f ∈ fl, f ≠ [] ∧ ∀ c ∈ f, isSpaceChar c = false) →
    noDoubleSpace (joinSpace fl) = true := by
  intro fl
  induction fl with
  | nil => intro _; rfl
  | cons f rest ih =>
    intro hok
    obtain ⟨hfne, hfns⟩ := hok f (by simp)
    cases rest with
    | nil => exact noDoubleSpace_of_ok f hfns
    | cons g rest' =>
      show noDoubleSpace (f ++ ' ' :: joinSpace (g :: rest')) = true
      apply noDoubleSpace_run_prepend f _ hfns
      have hJ := ih (fun x hx => hok x (by simp [hx]))
      cases hJv : joinSpace (g :: rest') with
      | nil => rfl
      | cons j J' =>
        show ((!(isSpaceChar ' ' && isSpaceChar j)) && noDoubleSpace (j :: J')) = true
        have hj : isSpaceChar j = false := by
          apply joinSpace_head_ok (g :: rest') (fun x hx => hok x (by simp [hx]))
          rw [hJv]; rfl
        rw [hJv] at hJ
        rw [hj, hJ]
        simp

/-- Every whitespace character of the single-space join of good runs is a
plain space. -/
theorem joinSpace_spaces : ∀ (fl : List (List Char)),
    (∀ f ∈ fl, f ≠ [] ∧ ∀ c ∈ f, isSpaceChar c = false) →
    ∀ c ∈ joinSpace fl, isSpaceChar c = true → c = ' ' := by
  intro fl
  induction fl with
  | nil => intro _ c hc; simp [joinSpace] at hc
  | cons f rest ih =>
    intro hok c hc hs
    obtain ⟨hfne, hfns⟩ := hok f (by simp)
    cases rest with
    | nil =>
      exact absurd hs (by simp [hfns c hc])
    | cons g rest' =>
      have hc' : c ∈ f ++ ' ' :: joinSpace (g :: rest') := hc
      rcases List.mem_append.mp hc' with hcf | hcr
      · exact absurd hs (by simp [hfns c hcf])
      · rcases List.mem_cons.mp hcr with hcsp | hcj
        · exact hcsp
        · exact ih (fun x hx => hok x (by simp [hx])) c hcj hs

/-! Toolkit lemmas about the placeholder engine. -/

/-- The ordinal rewrite is compositional: rewriting a concatenation numbers
the second block's markers starting right after the first block's count, so a
single top-level pass assigns contiguous ordinals across embedded neutral
text. -/
theorem replaceQFrom_append (m : String) (a b : List Char) (n : Nat) :
    replaceQFrom m (a ++ b) n =
      replaceQFrom m a n ++ replaceQFrom m b (n + countQ a) := by
  induction a generalizing n with
  | nil => simp [replaceQFrom, countQ]
  | cons c cs ih =>
    by_cases hc : c = '?'
    · subst hc
      show replaceQFrom m ('?' :: (cs ++ b)) n = _
      simp only [replaceQFrom, if_pos rfl]
      rw [ih (n + 1)]
      have harith : n + 1 + countQ cs = n + countQ ('?' :: cs) := by
        simp [countQ, List.countP_cons]
        omega
      rw [harith]
      simp [List.append_assoc]
    · show replaceQFrom m (c :: (cs ++ b)) n = _
      simp only [replaceQFrom, if_neg hc]
      rw [ih n]
      have harith : n + countQ cs = n + countQ (c :: cs) := by
        simp [countQ, List.countP_cons, hc]
      rw [harith]
      rfl

/-! Toolkit lemmas about the union renderer. -/

theorem unionPartsLoop_tail (rest : List unionPart) (i : Nat)
    (hok : ∀ p ∈ rest, (p.query.toSql).err = none) (hi : 1 ≤ i) :
    unionPartsLoop rest i = .ok (sjoin (rest.map segChunk), unionBodyArgs rest) := by
  induction rest generalizing i with
  | nil => simp [unionPartsLoop, sjoin, unionBodyArgs]
  | cons p rest' ih =>
    have hp := hok p (by simp)
    simp only [unionPartsLoop, hp]
    rw [ih (i + 1) (fun q hq => hok q (by simp [hq])) (by omega)]
    rw [if_pos (by omega : i > 0)]
    simp [sjoin, segChunk, unionBodyArgs, String.append_assoc]

theorem unionPartsLoop_char (p0 : unionPart) (rest : List unionPart)
    (hok : ∀ p ∈ p0 :: rest, (p.query.toSql).err = none) :
    unionPartsLoop (p0 :: rest) 0 =
      .ok (unionBodyText (p0 :: rest), unionBodyArgs (p0 :: rest)) := by
  have hp := hok p0 (by simp)
  simp only [unionPartsLoop, hp]
  rw [unionPartsLoop_tail rest 1 (fun p hq => hok p (by simp [hq])) (by omega)]
  simp [unionBodyText, unionBodyArgs, String.append_assoc]

theorem unionPartsLoop_err (good : List unionPart) (bad : unionPart)
    (rest : List unionPart) (e : String) (i : Nat)
    (hgood : ∀ p ∈ good, (p.query.toSql).err = none)
    (hbad : (bad.query.toSql).err = some e) :
    unionPartsLoop (good ++ bad :: rest) i =
      .error ("squirrel: union subquery " ++ toString (i + good.length) ++ ": " ++ e) := by
  induction good generalizing i with
  | nil =>
    simp only [List.nil_append, unionPartsLoop, hbad]
    simp
  | cons p g' ih =>
    have hp := hgood p (by simp)
    show unionPartsLoop (p :: (g' ++ bad :: rest)) i = _
    simp only [unionPartsLoop, hp]
    rw [ih (i + 1) (fun q hq => hgood q (by simp [hq]))]
    have harith : i + 1 + g'.length = i + (p :: g').length := by simp; omega
    rw [harith]

/-- Characterization of a successful whole-union render with no suffixes, no
placeholder rewrite and no compaction: the body followed by the three
optional whole-union clauses. -/
theorem unionToSql_char (d : unionData) (p0 : unionPart) (rest : List unionPart)
    (hp : d.Parts = p0 :: rest)
    (hok : ∀ p ∈ d.Parts, (p.query.toSql).err = none)
    (hsuf : d.Suffixes = []) (hfmt : d.PlaceholderFormat = none)
    (hcpt : d.CompactOutput = false) :
    d.toSql = ⟨unionBodyText d.Parts ++ orderClause d ++ limitClause d ++ offsetClause d,
               unionBodyArgs d.Parts, none⟩ := by
  unfold unionData.toSql
  rw [hp, hsuf, hfmt, hcpt]
  rw [if_neg (by simp)]
  rw [unionPartsLoop_char p0 rest (hp ▸ hok)]
  unfold orderClause limitClause offsetClause
  by_cases h1 : d.OrderBy.length > 0 <;> by_cases h2 : d.LimitSet <;>
    by_cases h3 : d.OffsetSet <;>
    simp [h1, h2, h3, String.append_assoc]

/-- Toggling only the compaction flag: the compacted render is exactly the
uncompacted render (placeholder rewrite included) post-processed by
`compactSQL`. -/
theorem unionToSql_compact_split (d : unionData) :
    unionData.toSql { d with CompactOutput := true } =
      ⟨compactSQL (unionData.toSql { d with CompactOutput := false }).sql,
       (unionData.toSql { d with CompactOutput := false }).args,
       (unionData.toSql { d with CompactOutput := false }).err⟩ := by
  unfold unionData.toSql
  dsimp only
  by_cases hp : d.Parts.length = 0
  · rw [if_pos hp, if_pos hp]
    rfl
  · rw [if_neg hp, if_neg hp]
    cases hl : unionPartsLoop d.Parts 0 with
    | error e => rfl
    | ok pr =>
      obtain ⟨body, args⟩ := pr
      dsimp only
      cases hsx : (if d.Suffixes.length > 0 then
          appendToSql d.Suffixes
            ((if d.OffsetSet = true then
                (if d.LimitSet = true then
                  (if d.OrderBy.length > 0 then
                      body ++ " ORDER BY " ++ String.intercalate ", " d.OrderBy
                    else body) ++ " LIMIT " ++ toString d.Limit
                 else
                  (if d.OrderBy.length > 0 then
                      body ++ " ORDER BY " ++ String.intercalate ", " d.OrderBy
                    else body)) ++ " OFFSET " ++ toString d.Offset
              else
                (if d.LimitSet = true then
                  (if d.OrderBy.length > 0 then
                      body ++ " ORDER BY " ++ String.intercalate ", " d.OrderBy
                    else body) ++ " LIMIT " ++ toString d.Limit
                 else
                  (if d.OrderBy.length > 0 then
                      body ++ " ORDER BY " ++ String.intercalate ", " d.OrderBy
                    else body))) ++ " ") " " args
        else .ok ((if d.OffsetSet = true then
                (if d.LimitSet = true then
                  (if d.OrderBy.length > 0 then
                      body ++ " ORDER BY " ++ String.intercalate ", " d.OrderBy
                    else body) ++ " LIMIT " ++ toString d.Limit
                 else
                  (if d.OrderBy.length > 0 then
                      body ++ " ORDER BY " ++ String.intercalate ", " d.OrderBy
                    else body)) ++ " OFFSET " ++ toString d.Offset
              else
                (if d.LimitSet = true then
                  (if d.OrderBy.length > 0 then
                      body ++ " ORDER BY " ++ String.intercalate ", " d.OrderBy
                    else body) ++ " LIMIT " ++ toString d.Limit
                 else
                  (if d.OrderBy.length > 0 then
                      body ++ " ORDER BY " ++ String.intercalate ", " d.OrderBy
                    else body))), args)) with
      | error e => rfl
      | ok pr2 =>
        obtain ⟨s2, args2⟩ := pr2
        cases d.PlaceholderFormat with
        | none => rfl
        | some f => rfl

/-! Toolkit lemmas about the CASE renderer. -/

theorem hasThen_cond {p : whenPart} (h : hasThenB p = true) :
    (p.thenSq.isNone && p.thenValue.isNone && !p.nullThen) = false := by
  cases hsq : p.thenSq <;> cases htv : p.thenValue <;> cases hnt : p.nullThen <;>
    simp_all [hasThenB]

theorem noThen_cond {p : whenPart} (h : hasThenB p = false) :
    (p.thenSq.isNone && p.thenValue.isNone && !p.nullThen) = true := by
  cases hsq : p.thenSq <;> cases htv : p.thenValue <;> cases hnt : p.nullThen <;>
    simp_all [hasThenB]

/-- An error-free buffer write of an error-free fragment appends its text plus
a trailing space and its arguments. -/
theorem WriteSql_ok (buf : String) (args : List Arg) (item : Sqlizer)
    (h : (nestedToSql item).err = none) :
    sqlizerBuffer.WriteSql ⟨buf, args, none⟩ item =
      ⟨buf ++ (nestedToSql item).sql ++ " ", args ++ (nestedToSql item).args, none⟩ := by
  simp only [sqlizerBuffer.WriteSql, h]

/-- Characterization of the WHEN/THEN loop on error-free, THEN-carrying parts:
it appends each pair's chunk and arguments in order and latches no error. -/
theorem caseWhenLoop_char (l : List whenPart) :
    ∀ (buf : String) (args : List Arg), (∀ p ∈ l, whenOkB p = true) →
    caseWhenLoop ⟨buf, args, none⟩ l =
      .ok ⟨buf ++ sjoin (l.map whenChunk),
           args ++ (l.map whenArgsOf).flatten, none⟩ := by
  induction l with
  | nil => intro buf args _; simp [caseWhenLoop, sjoin]
  | cons p rest ih =>
    intro buf args hok
    have hpok := hok p (by simp)
    have hw : (nestedToSql p.when).err = none := by
      have hx := hpok
      unfold whenOkB at hx
      rw [Bool.and_eq_true, Bool.and_eq_true] at hx
      exact beq_iff_eq.mp hx.1.1
    have hthen : hasThenB p = true := by
      have hx := hpok
      unfold whenOkB at hx
      rw [Bool.and_eq_true] at hx
      exact hx.2
    simp only [caseWhenLoop, sqlizerBuffer.WriteString]
    rw [WriteSql_ok _ _ _ hw]
    rw [if_neg (by simp [hasThen_cond hthen])]
    cases hsq : p.thenSq with
    | some t =>
      have ht : (nestedToSql t).err = none := by
        have hx := hpok
        unfold whenOkB at hx
        rw [hsq] at hx
        rw [Bool.and_eq_true, Bool.and_eq_true] at hx
        exact beq_iff_eq.mp hx.1.2
      simp only [sqlizerBuffer.WriteString]
      rw [WriteSql_ok _ _ _ ht]
      rw [ih _ _ (fun q hq => hok q (by simp [hq]))]
      simp [sjoin, whenChunk, whenArgsOf, hsq, String.append_assoc]
    | none =>
      simp only [sqlizerBuffer.WriteString]
      rw [ih _ _ (fun q hq => hok q (by simp [hq]))]
      simp [sjoin, whenChunk, whenArgsOf, hsq, String.append_assoc,
        show (Placeholders 1 ++ " " : String) = "? " from rfl]

/-- The loop stops with the missing-THEN error at the first part that has no
THEN in any of its three forms, whatever the buffer holds. -/
theorem caseWhenLoop_missing (pre : List whenPart) (p : whenPart)
    (post : List whenPart) (hpre : ∀ q ∈ pre, hasThenB q = true)
    (hp : hasThenB p = false) :
    ∀ b : sqlizerBuffer,
      caseWhenLoop b (pre ++ p :: post) = .error "When clause must have Then part" := by
  induction pre with
  | nil =>
    intro b
    simp only [List.nil_append, caseWhenLoop]
    rw [if_pos (noThen_cond hp)]
  | cons q pre' ih =>
    intro b
    simp only [List.cons_append, caseWhenLoop]
    rw [if_neg (by simp [hasThen_cond (hpre q (by simp))])]
    cases hsq : q.thenSq <;>
      exact ih (fun r hr => hpre r (by simp [hr])) _

/-- The `CASE ` header plus optional operand produce the operand chunk and its
arguments. -/
theorem caseFront_char (d : caseData) (buf : String) (hwhat : whatOkB d = true) :
    (match d.What with
     | some w => sqlizerBuffer.WriteSql ⟨buf, [], none⟩ w
     | none => (⟨buf, [], none⟩ : sqlizerBuffer)) =
    ⟨buf ++ whatChunk d, whatArgsOf d, none⟩ := by
  cases hwt : d.What with
  | none => simp [whatChunk, whatArgsOf, hwt]
  | some w =>
    have hw : (nestedToSql w).err = none := by
      unfold whatOkB at hwhat
      rw [hwt] at hwhat
      exact beq_iff_eq.mp hwhat
    dsimp only
    rw [WriteSql_ok _ _ _ hw]
    simp [whatChunk, whatArgsOf, hwt, String.append_assoc]

/-! The claims. -/

/-- Claim C5: CASE construction never fails and invariant violations surface
only at render time: rendering with zero WHEN parts returns the
zero-WHEN error, and rendering with a WHEN part that has no THEN in any of
its three forms returns the missing-THEN error; both failures return empty
text and an empty argument list. -/
theorem claim_C5 (d : caseData) :
    (d.WhenParts = [] →
      d.ToSql = ⟨"", [], some "case expression must contain at lease one WHEN clause"⟩) ∧
    (∀ pre p post, d.WhenParts = pre ++ p :: post →
      (∀ q ∈ pre, hasThenB q = true) → hasThenB p = false →
      d.ToSql = ⟨"", [], some "When clause must have Then part"⟩) := by
  constructor
  · intro h
    unfold caseData.ToSql
    rw [h]
    simp
  · intro pre p post hparts hpre hp
    unfold caseData.ToSql
    rw [hparts]
    rw [if_neg (by simp)]
    dsimp only
    rw [caseWhenLoop_missing pre p post hpre hp]

/-- Witness for C5 at concrete inputs: the empty CASE and a CASE whose only
WHEN part has no THEN. -/
theorem claim_C5_witness :
    caseData.ToSql emptyCaseData =
      ⟨"", [], some "case expression must contain at lease one WHEN clause"⟩ ∧
    caseData.ToSql ⟨none, [⟨Sqlizer.frag ⟨"w", [], none⟩, none, none, false⟩],
        none, none, false⟩ =
      ⟨"", [], some "When clause must have Then part"⟩ :=
  ⟨(claim_C5 emptyCaseData).1 rfl,
   (claim_C5 _).2 [] ⟨Sqlizer.frag ⟨"w", [], none⟩, none, none, false⟩ [] rfl
     (by simp) rfl⟩

/-- Claim C6: rendering a union with zero segments fails with the
at-least-one-statement error (the source message says "at least one SELECT"),
returning no text and no arguments; a one-statement union renders as just the
parenthesized statement, so (as long as the child itself does not contain the
keyword) its text contains no combining keyword `UNION` (and hence none of
the longer `UNION ALL`). -/
theorem claim_C6 :
    (∀ d : unionData, d.Parts = [] →
      d.toSql = ⟨"", [], some "squirrel: union requires at least one SELECT"⟩) ∧
    (∀ x : Sqlizer, (x.toSql).err = none →
      ((Union [x]).ToSql).err = none ∧
      ((Union [x]).ToSql).sql = "(" ++ (x.toSql).sql ++ ")" ∧
      (¬ containsStr (x.toSql).sql "UNION" →
        ¬ containsStr ((Union [x]).ToSql).sql "UNION")) := by
  constructor
  · intro d h
    unfold unionData.toSql
    rw [h]
    simp
  · intro x hx
    have hchar := unionToSql_char (Union [x]).data ⟨"", x⟩ [] rfl
      (by
        intro p hp
        have hps : (Union [x]).data.Parts = [⟨"", x⟩] := rfl
        rw [hps] at hp
        simp at hp
        subst hp
        exact hx) rfl rfl rfl
    have hsql : ((Union [x]).ToSql).sql = "(" ++ (x.toSql).sql ++ ")" := by
      show ((Union [x]).data.toSql).sql = _
      rw [hchar]
      simp [unionBodyText, sjoin, orderClause, limitClause, offsetClause, Union,
        emptyUnionData, String.append_assoc]
    refine ⟨?_, hsql, ?_⟩
    · show ((Union [x]).data.toSql).err = none
      rw [hchar]
    · intro hnc
      rw [hsql]
      apply not_containsStr_append_right (b := ")")
      · intro c hc
        cases hc
        decide
      · apply not_containsStr_append_left (a := "(")
        · intro c hc
          cases hc
          decide
        · decide
        · exact hnc
      · decide

/-- Witness for C6 at concrete inputs: the empty union errors, the singleton
union renders without any combining keyword. -/
theorem claim_C6_witness :
    (Union []).data.toSql = ⟨"", [], some "squirrel: union requires at least one SELECT"⟩ ∧
    ((Union [Sqlizer.frag ⟨"SELECT 1", [], none⟩]).ToSql).sql = "(SELECT 1)" ∧
    ¬ containsStr ((Union [Sqlizer.frag ⟨"SELECT 1", [], none⟩]).ToSql).sql "UNION" := by
  refine ⟨claim_C6.1 (Union []).data rfl, ?_, ?_⟩
  · rw [(claim_C6.2 (Sqlizer.frag ⟨"SELECT 1", [], none⟩) rfl).2.1]
    decide
  · exact (claim_C6.2 (Sqlizer.frag ⟨"SELECT 1", [], none⟩) rfl).2.2 (by decide)

/-- Claim C7: when the first failing segment of a union chain is at index
`good.length`, the union render returns that child's error wrapped with the
segment index, halts, and returns empty SQL text and no arguments. -/
theorem claim_C7 (d : unionData) (good : List unionPart) (bad : unionPart)
    (rest : List unionPart) (e : String)
    (hp : d.Parts = good ++ bad :: rest)
    (hgood : ∀ p ∈ good, (p.query.toSql).err = none)
    (hbad : (bad.query.toSql).err = some e) :
    d.toSql = ⟨"", [],
      some ("squirrel: union subquery " ++ toString good.length ++ ": " ++ e)⟩ := by
  unfold unionData.toSql
  rw [hp]
  rw [if_neg (by simp)]
  rw [unionPartsLoop_err good bad rest e 0 hgood hbad]
  simp

/-- Claim C1: for a non-empty union with error-free segments (and no extra
whole-union clauses, suffixes, placeholder rewrite or compaction, which would
add further text or arguments), rendering succeeds with exactly the claimed
text: segment 0's rendered statement parenthesized with no leading operator,
then for each later segment a space, the operator recorded on that segment
itself, a space and the parenthesized statement; the argument list is the
concatenation of the segments' argument lists in order, so its length is the
sum of the segments' argument counts; and the appending constructors record
`UNION` / `UNION ALL` on the appended segment itself. -/
theorem claim_C1 (d : unionData) (p0 : unionPart) (rest : List unionPart)
    (hp : d.Parts = p0 :: rest)
    (hok : ∀ p ∈ d.Parts, (p.query.toSql).err = none)
    (hord : d.OrderBy = []) (hl : d.LimitSet = false) (ho : d.OffsetSet = false)
    (hsuf : d.Suffixes = []) (hfmt : d.PlaceholderFormat = none)
    (hcpt : d.CompactOutput = false) :
    d.toSql = ⟨unionBodyText d.Parts, unionBodyArgs d.Parts, none⟩ ∧
    (d.toSql).args.length =
      (d.Parts.map (fun p => (p.query.toSql).args.length)).sum ∧
    (∀ (b : UnionBuilder) (q : Sqlizer),
      (b.Union q).data.Parts = b.data.Parts ++ [⟨unionDistinct, q⟩]) ∧
    (∀ (b : UnionBuilder) (q : Sqlizer),
      (b.UnionAll q).data.Parts = b.data.Parts ++ [⟨unionAllOp, q⟩]) := by
  have hchar := unionToSql_char d p0 rest hp hok hsuf hfmt hcpt
  have h1 : d.toSql = ⟨unionBodyText d.Parts, unionBodyArgs d.Parts, none⟩ := by
    rw [hchar]
    simp [orderClause, limitClause, offsetClause, hord, hl, ho]
  refine ⟨h1, ?_, fun b q => rfl, fun b q => rfl⟩
  rw [h1]
  simp only [unionBodyArgs, List.length_flatten, List.map_map]
  rfl

/-- Witness for C1 at a concrete input: a two-segment UNION ALL chain with
one argument per segment. -/
theorem claim_C1_witness :
    (UnionAll [Sqlizer.frag ⟨"a = ?", [some (GoVal.vint 1)], none⟩,
               Sqlizer.frag ⟨"b = ?", [some (GoVal.vint 2)], none⟩]).data.toSql =
      ⟨"(a = ?) UNION ALL (b = ?)",
       [some (GoVal.vint 1), some (GoVal.vint 2)], none⟩ := by
  have h := claim_C1
    (UnionAll [Sqlizer.frag ⟨"a = ?", [some (GoVal.vint 1)], none⟩,
               Sqlizer.frag ⟨"b = ?", [some (GoVal.vint 2)], none⟩]).data
    ⟨"", Sqlizer.frag ⟨"a = ?", [some (GoVal.vint 1)], none⟩⟩
    [⟨unionAllOp, Sqlizer.frag ⟨"b = ?", [some (GoVal.vint 2)], none⟩⟩]
    rfl (by decide) rfl rfl rfl rfl rfl rfl
  rw [h.1]
  decide

/-- Claim C9: LIMIT and OFFSET are separately tracked optional values with
explicit is-set flags; `Limit n` (resp. `Offset n`) for any n, zero included,
makes the rendered text carry exactly ` LIMIT n` (resp. ` OFFSET n`) in clause
position, while a builder whose flag was never set renders no such clause. -/
theorem claim_C9 (b : UnionBuilder) (n : Nat) (p0 : unionPart)
    (rest : List unionPart)
    (hp : b.data.Parts = p0 :: rest)
    (hok : ∀ p ∈ b.data.Parts, (p.query.toSql).err = none)
    (hsuf : b.data.Suffixes = []) (hfmt : b.data.PlaceholderFormat = none)
    (hcpt : b.data.CompactOutput = false) :
    ((b.Limit n).data.LimitSet = true ∧ (b.Limit n).data.Limit = n ∧
     (b.Offset n).data.OffsetSet = true ∧ (b.Offset n).data.Offset = n) ∧
    ((b.Limit n).ToSql).sql =
      unionBodyText b.data.Parts ++ orderClause b.data ++
        (" LIMIT " ++ toString n) ++ offsetClause b.data ∧
    ((b.Offset n).ToSql).sql =
      unionBodyText b.data.Parts ++ orderClause b.data ++ limitClause b.data ++
        (" OFFSET " ++ toString n) ∧
    (b.data.LimitSet = false →
      (b.ToSql).sql =
        unionBodyText b.data.Parts ++ orderClause b.data ++ offsetClause b.data) ∧
    (b.data.OffsetSet = false →
      (b.ToSql).sql =
        unionBodyText b.data.Parts ++ orderClause b.data ++ limitClause b.data) := by
  refine ⟨⟨rfl, rfl, rfl, rfl⟩, ?_, ?_, ?_, ?_⟩
  · have hc := unionToSql_char (b.Limit n).data p0 rest hp hok hsuf hfmt hcpt
    show ((b.Limit n).data.toSql).sql = _
    rw [hc]
    show unionBodyText b.data.Parts ++ orderClause (b.Limit n).data ++
      limitClause (b.Limit n).data ++ offsetClause (b.Limit n).data = _
    simp only [orderClause, limitClause, offsetClause, UnionBuilder.Limit]
    rfl
  · have hc := unionToSql_char (b.Offset n).data p0 rest hp hok hsuf hfmt hcpt
    show ((b.Offset n).data.toSql).sql = _
    rw [hc]
    show unionBodyText b.data.Parts ++ orderClause (b.Offset n).data ++
      limitClause (b.Offset n).data ++ offsetClause (b.Offset n).data = _
    simp only [orderClause, limitClause, offsetClause, UnionBuilder.Offset]
    rfl
  · intro hnL
    have hc := unionToSql_char b.data p0 rest hp hok hsuf hfmt hcpt
    show (b.data.toSql).sql = _
    rw [hc]
    show unionBodyText b.data.Parts ++ orderClause b.data ++ limitClause b.data ++
      offsetClause b.data = _
    rw [limitClause, hnL]
    simp
  · intro hnO
    have hc := unionToSql_char b.data p0 rest hp hok hsuf hfmt hcpt
    show (b.data.toSql).sql = _
    rw [hc]
    show unionBodyText b.data.Parts ++ orderClause b.data ++ limitClause b.data ++
      offsetClause b.data = _
    rw [offsetClause, hnO]
    simp

/-- Witness for C9 at a concrete input: LIMIT 0 is rendered (zero is a valid,
set value) while the plain builder renders neither clause. -/
theorem claim_C9_witness :
    (((Union [Sqlizer.frag ⟨"SELECT 1", [], none⟩]).Limit 0).ToSql).sql =
      "(SELECT 1) LIMIT 0" ∧
    ((Union [Sqlizer.frag ⟨"SELECT 1", [], none⟩]).ToSql).sql = "(SELECT 1)" := by
  have h := claim_C9 (Union [Sqlizer.frag ⟨"SELECT 1", [], none⟩]) 0
    ⟨"", Sqlizer.frag ⟨"SELECT 1", [], none⟩⟩ [] rfl (by decide) rfl rfl rfl
  constructor
  · rw [h.2.1]
    decide
  · rw [h.2.2.2.1 rfl]
    decide

/-- Claim C3: a JOIN-position lateral part renders its join keyword, then
`LATERAL (<sub>) AS <alias>`, emits ` ON <cond>` exactly when an on-condition
fragment is present (appending the condition's arguments after the
subquery's), and parts built by `CrossJoinLateralSelect` always carry a nil
on-condition, so they never reach the ON-emitting branch. -/
theorem claim_C3 :
    (∀ (p : joinLateralSelectPart) (c : Sqlizer), p.onCond = some c →
      (p.sel.toSql).err = none → (c.toSql).err = none →
      p.ToSql = ⟨p.joinType ++ " LATERAL (" ++ (p.sel.toSql).sql ++ ") AS " ++
                   p.aliasName ++ " ON " ++ (c.toSql).sql,
                 (p.sel.toSql).args ++ (c.toSql).args, none⟩) ∧
    (∀ p : joinLateralSelectPart, p.onCond = none → (p.sel.toSql).err = none →
      p.ToSql = ⟨p.joinType ++ " LATERAL (" ++ (p.sel.toSql).sql ++ ") AS " ++
                   p.aliasName, (p.sel.toSql).args, none⟩) ∧
    (∀ (b : SelectBuilder) (sel : Sqlizer) (a : String),
      (b.CrossJoinLateralSelect sel a).Joins =
        b.Joins ++ [⟨"CROSS JOIN", forceQuestionPlaceholders sel, a, none⟩]) := by
  refine ⟨?_, ?_, fun b sel a => rfl⟩
  · intro p c hc hs ho
    simp only [joinLateralSelectPart.ToSql, hs, hc, ho]
  · intro p hc hs
    simp only [joinLateralSelectPart.ToSql, hs, hc]

/-- Witness for C3 at concrete inputs: a JOIN part with an ON condition, a
part without one, and a CROSS JOIN built by the builder operation. -/
theorem claim_C3_witness :
    joinLateralSelectPart.ToSql ⟨"JOIN", Sqlizer.frag ⟨"S", [], none⟩, "t",
        some (Sqlizer.frag ⟨"TRUE", [some (GoVal.vint 5)], none⟩)⟩ =
      ⟨"JOIN LATERAL (S) AS t ON TRUE", [some (GoVal.vint 5)], none⟩ ∧
    joinLateralSelectPart.ToSql ⟨"CROSS JOIN", Sqlizer.frag ⟨"S", [], none⟩, "t", none⟩ =
      ⟨"CROSS JOIN LATERAL (S) AS t", [], none⟩ ∧
    (emptySelectBuilder.CrossJoinLateralSelect (Sqlizer.frag ⟨"S", [], none⟩) "g").Joins =
      [⟨"CROSS JOIN", Sqlizer.frag ⟨"S", [], none⟩, "g", none⟩] := by
  refine ⟨?_, ?_, ?_⟩
  · rw [claim_C3.1
      ⟨"JOIN", Sqlizer.frag ⟨"S", [], none⟩, "t",
        some (Sqlizer.frag ⟨"TRUE", [some (GoVal.vint 5)], none⟩)⟩
      (Sqlizer.frag ⟨"TRUE", [some (GoVal.vint 5)], none⟩) rfl rfl rfl]
    decide
  · rw [claim_C3.2.1
      ⟨"CROSS JOIN", Sqlizer.frag ⟨"S", [], none⟩, "t", none⟩ rfl rfl]
    decide
  · rw [claim_C3.2.2]
    decide

/-- Counterexample to C2 as stated: a UNION builder carrying the dollar
format is a fragment type with a placeholder-format concept, yet
`JoinLateralSelect` stores it unchanged (still dollar, not forced to the
neutral question form). -/
theorem claim_C2_counterexample :
    ((emptySelectBuilder.JoinLateralSelect dollarUnionFrag "u" none).Joins.map
        (fun p => Sqlizer.currentPlaceholderFormat p.sel)) =
      [some PlaceholderFormat.dollar] ∧
    Sqlizer.hasPlaceholderFormatConcept dollarUnionFrag = true := by decide

/-- Claim C2 (amended): all four lateral attachment operations store
`forceQuestionPlaceholders` of the embedded fragment; that forcing sets the
placeholder format to question exactly for the two recognized
statement-builder types (SelectBuilder and CTE builder) and leaves every
other fragment unchanged — including UnionBuilder fragments, which do have a
placeholder-format concept; a forced statement builder renders its neutral
body verbatim, and the ordinal rewrite of the parent's single top-level pass
numbers markers contiguously across concatenated text. -/
theorem claim_C2 :
    (∀ (b : SelectBuilder) (s : Sqlizer) (a : String),
      (b.FromSelectLateral s a).From = some ⟨forceQuestionPlaceholders s, a⟩) ∧
    (∀ (b : SelectBuilder) (s : Sqlizer) (a : String) (o : Option Sqlizer),
      (b.JoinLateralSelect s a o).Joins =
        b.Joins ++ [⟨"JOIN", forceQuestionPlaceholders s, a, o⟩]) ∧
    (∀ (b : SelectBuilder) (s : Sqlizer) (a : String) (o : Option Sqlizer),
      (b.LeftJoinLateralSelect s a o).Joins =
        b.Joins ++ [⟨"LEFT JOIN", forceQuestionPlaceholders s, a, o⟩]) ∧
    (∀ (b : SelectBuilder) (s : Sqlizer) (a : String),
      (b.CrossJoinLateralSelect s a).Joins =
        b.Joins ++ [⟨"CROSS JOIN", forceQuestionPlaceholders s, a, none⟩]) ∧
    (∀ (f : PlaceholderFormat) (body : String) (args : List Arg),
      forceQuestionPlaceholders (Sqlizer.sel f body args) =
        Sqlizer.sel PlaceholderFormat.question body args ∧
      forceQuestionPlaceholders (Sqlizer.cte f body args) =
        Sqlizer.cte PlaceholderFormat.question body args ∧
      (forceQuestionPlaceholders (Sqlizer.sel f body args)).toSql =
        ⟨body, args, none⟩ ∧
      (forceQuestionPlaceholders (Sqlizer.cte f body args)).toSql =
        ⟨body, args, none⟩) ∧
    (∀ (f : Option PlaceholderFormat) (r : GoResult),
      forceQuestionPlaceholders (Sqlizer.unionB f r) = Sqlizer.unionB f r) ∧
    (∀ r : GoResult, forceQuestionPlaceholders (Sqlizer.frag r) = Sqlizer.frag r) ∧
    (∀ (m : String) (a b : List Char) (n : Nat),
      replaceQFrom m (a ++ b) n =
        replaceQFrom m a n ++ replaceQFrom m b (n + countQ a)) :=
  ⟨fun _ _ _ => rfl, fun _ _ _ _ => rfl, fun _ _ _ _ => rfl, fun _ _ _ => rfl,
   fun _ _ _ => ⟨rfl, rfl, rfl, rfl⟩, fun _ _ => rfl, fun _ => rfl,
   replaceQFrom_append⟩

theorem endsSpC_of_last {s : String} (h : s.data.getLast? = some ' ') :
    endsSpC s := by
  intro c hc
  rw [h] at hc
  cases hc
  rfl

theorem endsSpC_empty : endsSpC "" := by
  intro c hc
  simp at hc

theorem headSp_notinELSE (c : Char) (hc : (" " : String).data.head? = some c) :
    c ∉ ("ELSE" : String).data := by
  have h0 : (" " : String).data.head? = some ' ' := rfl
  rw [h0] at hc
  cases hc
  decide

theorem endsSpC_whenChunk (p : whenPart) : endsSpC (whenChunk p) := by
  unfold whenChunk
  cases htv : p.thenSq with
  | some t =>
    exact endsSpC_append
      (endsSpC_append (endsSpC_append_space _) (endsSpC_of_last (by decide)))
      (endsSpC_append_space _)
  | none =>
    exact endsSpC_append
      (endsSpC_append (endsSpC_append_space _) (endsSpC_of_last (by decide)))
      (endsSpC_of_last (by decide))

theorem endsSpC_sjoinWhen (l : List whenPart) :
    endsSpC (sjoin (l.map whenChunk)) := by
  induction l with
  | nil => exact endsSpC_empty
  | cons p rest ih =>
    show endsSpC (whenChunk p ++ sjoin (rest.map whenChunk))
    exact endsSpC_append (endsSpC_whenChunk p) ih

theorem endsSpC_whatChunk (d : caseData) : endsSpC (whatChunk d) := by
  unfold whatChunk
  cases hwt : d.What with
  | none => exact endsSpC_empty
  | some w => exact endsSpC_append_space _

theorem not_containsStr_ELSE_whenChunk (p : whenPart)
    (hwn : ¬ containsStr (nestedToSql p.when).sql "ELSE")
    (htn : ∀ t, p.thenSq = some t → ¬ containsStr (nestedToSql t).sql "ELSE") :
    ¬ containsStr (whenChunk p) "ELSE" := by
  have hkw : ' ' ∉ ("ELSE" : String).data := by decide
  have hpre : ¬ containsStr
      ("WHEN " ++ (nestedToSql p.when).sql ++ " " ++ "THEN ") "ELSE" := by
    apply not_containsStr_append_sp hkw (endsSpC_append_space _)
    · apply not_containsStr_append_right headSp_notinELSE
      · apply not_containsStr_append_sp hkw (endsSpC_of_last (by decide))
        · decide
        · exact hwn
      · decide
    · decide
  unfold whenChunk
  cases htv : p.thenSq with
  | some t =>
    apply not_containsStr_append_sp hkw
      (endsSpC_append (endsSpC_append_space _) (endsSpC_of_last (by decide)))
      hpre
    apply not_containsStr_append_right headSp_notinELSE (htn t htv)
    decide
  | none =>
    apply not_containsStr_append_sp hkw
      (endsSpC_append (endsSpC_append_space _) (endsSpC_of_last (by decide)))
      hpre
    decide

theorem not_containsStr_ELSE_sjoin (l : List whenPart)
    (h : ∀ p ∈ l, ¬ containsStr (nestedToSql p.when).sql "ELSE" ∧
         ∀ t, p.thenSq = some t → ¬ containsStr (nestedToSql t).sql "ELSE") :
    ¬ containsStr (sjoin (l.map whenChunk)) "ELSE" := by
  have hkw : ' ' ∉ ("ELSE" : String).data := by decide
  induction l with
  | nil =>
    show ¬ containsStr "" "ELSE"
    decide
  | cons p rest ih =>
    show ¬ containsStr (whenChunk p ++ sjoin (rest.map whenChunk)) "ELSE"
    apply not_containsStr_append_sp hkw (endsSpC_whenChunk p)
    · exact not_containsStr_ELSE_whenChunk p (h p (by simp)).1 (h p (by simp)).2
    · exact ih (fun q hq => h q (by simp [hq]))

theorem not_containsStr_ELSE_whatChunk (d : caseData)
    (h : ∀ w, d.What = some w → ¬ containsStr (nestedToSql w).sql "ELSE") :
    ¬ containsStr (whatChunk d) "ELSE" := by
  unfold whatChunk
  cases hwt : d.What with
  | none =>
    show ¬ containsStr "" "ELSE"
    decide
  | some w =>
    apply not_containsStr_append_right headSp_notinELSE (h w hwt)
    decide

/-- The text the CASE renderer emits around its children contains no ELSE
keyword when no ELSE variant is set, as long as the children's own rendered
texts do not contain it. -/
theorem not_containsStr_ELSE_case (d : caseData)
    (hno : ∀ s ∈ caseChildTexts d, ¬ containsStr s "ELSE") :
    ¬ containsStr
      ("CASE " ++ whatChunk d ++ sjoin (d.WhenParts.map whenChunk) ++ "END")
      "ELSE" := by
  have hkw : ' ' ∉ ("ELSE" : String).data := by decide
  have hwhatN : ∀ w, d.What = some w → ¬ containsStr (nestedToSql w).sql "ELSE" := by
    intro w hwt
    apply hno
    unfold caseChildTexts
    rw [hwt]
    exact List.mem_append.mpr (Or.inl (List.mem_append.mpr (Or.inl (by simp))))
  have hwhenN : ∀ p ∈ d.WhenParts,
      ¬ containsStr (nestedToSql p.when).sql "ELSE" ∧
      ∀ t, p.thenSq = some t → ¬ containsStr (nestedToSql t).sql "ELSE" := by
    intro p hp
    constructor
    · apply hno
      unfold caseChildTexts
      exact List.mem_append.mpr (Or.inl (List.mem_append.mpr
        (Or.inr (List.mem_map_of_mem _ hp))))
    · intro t htv
      apply hno
      unfold caseChildTexts
      refine List.mem_append.mpr (Or.inr (List.mem_filterMap.mpr ⟨p, hp, ?_⟩))
      rw [htv]
      rfl
  apply not_containsStr_append_sp hkw
    (endsSpC_append (endsSpC_append (endsSpC_of_last (by decide))
      (endsSpC_whatChunk d)) (endsSpC_sjoinWhen d.WhenParts))
  · apply not_containsStr_append_sp hkw
      (endsSpC_append (endsSpC_of_last (by decide)) (endsSpC_whatChunk d))
    · apply not_containsStr_append_sp hkw (endsSpC_of_last (by decide))
      · decide
      · exact not_containsStr_ELSE_whatChunk d hwhatN
    · exact not_containsStr_ELSE_sjoin d.WhenParts hwhenN
  · decide

/-- Claim C4: for CASE builders with at least one WHEN/THEN pair (children
rendering without error): with no ELSE variant set the renderer emits no
`ELSE` keyword (text is exactly header, WHEN chunks and `END`, and contains
no `ELSE` whenever the children's texts do not); with ELSE set to a concrete
value it emits `ELSE ` plus exactly one neutral placeholder and appends
exactly that one value; with only the explicit NULL marker set it emits the
same single placeholder bound to a null argument, not the literal text
`NULL`. -/
theorem claim_C4 (d : caseData) (hne : d.WhenParts ≠ [])
    (hwhat : whatOkB d = true) (hw : ∀ p ∈ d.WhenParts, whenOkB p = true) :
    (d.Else = none → d.ElseValue = none → d.ElseNull = false →
      d.ToSql = ⟨"CASE " ++ whatChunk d ++ sjoin (d.WhenParts.map whenChunk) ++ "END",
                 whatArgsOf d ++ (d.WhenParts.map whenArgsOf).flatten, none⟩ ∧
      ((∀ s ∈ caseChildTexts d, ¬ containsStr s "ELSE") →
        ¬ containsStr (d.ToSql).sql "ELSE")) ∧
    (∀ v, d.Else = none → d.ElseValue = some v →
      d.ToSql = ⟨"CASE " ++ whatChunk d ++ sjoin (d.WhenParts.map whenChunk) ++
                   "ELSE " ++ "? " ++ "END",
                 whatArgsOf d ++ (d.WhenParts.map whenArgsOf).flatten ++ [some v],
                 none⟩) ∧
    (d.Else = none → d.ElseValue = none → d.ElseNull = true →
      d.ToSql = ⟨"CASE " ++ whatChunk d ++ sjoin (d.WhenParts.map whenChunk) ++
                   "ELSE " ++ "? " ++ "END",
                 whatArgsOf d ++ (d.WhenParts.map whenArgsOf).flatten ++ [none],
                 none⟩) := by
  refine ⟨?_, ?_, ?_⟩
  · intro h1 h2 h3
    have heq : d.ToSql =
        ⟨"CASE " ++ whatChunk d ++ sjoin (d.WhenParts.map whenChunk) ++ "END",
         whatArgsOf d ++ (d.WhenParts.map whenArgsOf).flatten, none⟩ := by
      unfold caseData.ToSql
      rw [if_neg (by simp [hne])]
      dsimp only
      rw [show sqlizerBuffer.WriteString ⟨"", [], none⟩ "CASE " =
        (⟨"CASE ", [], none⟩ : sqlizerBuffer) from rfl]
      rw [caseFront_char d "CASE " hwhat]
      rw [caseWhenLoop_char d.WhenParts _ _ hw]
      dsimp only
      rw [h1, h2, h3]
      simp [sqlizerBuffer.WriteString, String.append_assoc]
    refine ⟨heq, ?_⟩
    intro hno
    rw [heq]
    exact not_containsStr_ELSE_case d hno
  · intro v h1 h2
    unfold caseData.ToSql
    rw [if_neg (by simp [hne])]
    dsimp only
    rw [show sqlizerBuffer.WriteString ⟨"", [], none⟩ "CASE " =
      (⟨"CASE ", [], none⟩ : sqlizerBuffer) from rfl]
    rw [caseFront_char d "CASE " hwhat]
    rw [caseWhenLoop_char d.WhenParts _ _ hw]
    dsimp only
    rw [h1, h2]
    simp [sqlizerBuffer.WriteString, String.append_assoc,
      show (Placeholders 1 ++ " " : String) = "? " from rfl, h2]
  · intro h1 h2 h3
    unfold caseData.ToSql
    rw [if_neg (by simp [hne])]
    dsimp only
    rw [show sqlizerBuffer.WriteString ⟨"", [], none⟩ "CASE " =
      (⟨"CASE ", [], none⟩ : sqlizerBuffer) from rfl]
    rw [caseFront_char d "CASE " hwhat]
    rw [caseWhenLoop_char d.WhenParts _ _ hw]
    dsimp only
    rw [h1, h2, h3]
    simp [sqlizerBuffer.WriteString, String.append_assoc,
      show (Placeholders 1 ++ " " : String) = "? " from rfl, h2]

/-- Witness for C4 at concrete inputs: one CASE with no ELSE, one with a
concrete ELSE value, one with the explicit NULL marker. -/
theorem claim_C4_witness :
    caseData.ToSql ⟨none, [⟨Sqlizer.frag ⟨"x = 1", [], none⟩, none,
        some (GoVal.vint 2), false⟩], none, none, false⟩ =
      ⟨"CASE WHEN x = 1 THEN ? END", [some (GoVal.vint 2)], none⟩ ∧
    ¬ containsStr (caseData.ToSql ⟨none, [⟨Sqlizer.frag ⟨"x = 1", [], none⟩, none,
        some (GoVal.vint 2), false⟩], none, none, false⟩).sql "ELSE" ∧
    caseData.ToSql ⟨none, [⟨Sqlizer.frag ⟨"x = 1", [], none⟩, none,
        some (GoVal.vint 2), false⟩], none, some (GoVal.vint 3), false⟩ =
      ⟨"CASE WHEN x = 1 THEN ? ELSE ? END",
       [some (GoVal.vint 2), some (GoVal.vint 3)], none⟩ ∧
    caseData.ToSql ⟨none, [⟨Sqlizer.frag ⟨"x = 1", [], none⟩, none,
        some (GoVal.vint 2), false⟩], none, none, true⟩ =
      ⟨"CASE WHEN x = 1 THEN ? ELSE ? END",
       [some (GoVal.vint 2), none], none⟩ := by
  refine ⟨?_, ?_, ?_, ?_⟩
  · rw [((claim_C4 ⟨none, [⟨Sqlizer.frag ⟨"x = 1", [], none⟩, none,
        some (GoVal.vint 2), false⟩], none, none, false⟩ (by decide) (by decide)
        (by decide)).1 rfl rfl rfl).1]
    decide
  · exact ((claim_C4 ⟨none, [⟨Sqlizer.frag ⟨"x = 1", [], none⟩, none,
        some (GoVal.vint 2), false⟩], none, none, false⟩ (by decide) (by decide)
        (by decide)).1 rfl rfl rfl).2 (by decide)
  · rw [(claim_C4 ⟨none, [⟨Sqlizer.frag ⟨"x = 1", [], none⟩, none,
        some (GoVal.vint 2), false⟩], none, some (GoVal.vint 3), false⟩ (by decide)
        (by decide) (by decide)).2.1 (GoVal.vint 3) rfl rfl]
    decide
  · rw [(claim_C4 ⟨none, [⟨Sqlizer.frag ⟨"x = 1", [], none⟩, none,
        some (GoVal.vint 2), false⟩], none, none, true⟩ (by decide) (by decide)
        (by decide)).2.2 rfl rfl rfl]
    decide

/-- Rendering with no ELSE fragment but a value or null marker set emits one
placeholder bound to whatever `ElseValue` holds. -/
theorem caseToSql_else_value (d : caseData) (hne : d.WhenParts ≠ [])
    (hwhat : whatOkB d = true) (hw : ∀ p ∈ d.WhenParts, whenOkB p = true)
    (h1 : d.Else = none) (h2 : d.ElseValue.isSome = true ∨ d.ElseNull = true) :
    d.ToSql = ⟨"CASE " ++ whatChunk d ++ sjoin (d.WhenParts.map whenChunk) ++
                 "ELSE " ++ "? " ++ "END",
               whatArgsOf d ++ (d.WhenParts.map whenArgsOf).flatten ++ [d.ElseValue],
               none⟩ := by
  unfold caseData.ToSql
  rw [if_neg (by simp [hne])]
  dsimp only
  rw [show sqlizerBuffer.WriteString ⟨"", [], none⟩ "CASE " =
    (⟨"CASE ", [], none⟩ : sqlizerBuffer) from rfl]
  rw [caseFront_char d "CASE " hwhat]
  rw [caseWhenLoop_char d.WhenParts _ _ hw]
  dsimp only
  have hcond : (d.Else.isSome || d.ElseValue.isSome || d.ElseNull) = true := by
    rcases h2 with h2 | h2 <;> simp [h2]
  have hcond2 : (d.ElseValue.isSome || d.ElseNull) = true := by
    rcases h2 with h2 | h2 <;> simp [h2]
  rw [if_pos hcond, h1]
  dsimp only
  rw [if_pos hcond2]
  simp [sqlizerBuffer.WriteString, String.append_assoc,
    show (Placeholders 1 ++ " " : String) = "? " from rfl]

/-- Claim C10: the three ELSE variants live in separate fields and setting
one never clears another; at render time a stored ELSE fragment takes
precedence, and otherwise exactly one placeholder is emitted bound to
whatever `ElseValue` currently holds — so calling `Else v` (v concrete) and
then `Else nil` renders a placeholder bound to v, not to null. -/
theorem claim_C10 (d : caseData) (v : GoVal) (hne : d.WhenParts ≠ [])
    (hwhat : whatOkB d = true) (hw : ∀ p ∈ d.WhenParts, whenOkB p = true) :
    ((((CaseBuilder.mk d).Else (GoAny.value v)).Else GoAny.nil).data.ElseValue = some v ∧
     (((CaseBuilder.mk d).Else (GoAny.value v)).Else GoAny.nil).data.ElseNull = true ∧
     (((CaseBuilder.mk d).Else (GoAny.value v)).Else GoAny.nil).data.Else = d.Else ∧
     (((CaseBuilder.mk d).Else (GoAny.value v)).Else GoAny.nil).data.WhenParts = d.WhenParts ∧
     (((CaseBuilder.mk d).Else (GoAny.value v)).Else GoAny.nil).data.What = d.What) ∧
    (∀ f, d.Else = some f → (nestedToSql f).err = none →
      d.ToSql = ⟨"CASE " ++ whatChunk d ++ sjoin (d.WhenParts.map whenChunk) ++
                   "ELSE " ++ ((nestedToSql f).sql ++ " ") ++ "END",
                 whatArgsOf d ++ (d.WhenParts.map whenArgsOf).flatten ++
                   (nestedToSql f).args, none⟩) ∧
    (d.Else = none → (d.ElseValue.isSome = true ∨ d.ElseNull = true) →
      d.ToSql = ⟨"CASE " ++ whatChunk d ++ sjoin (d.WhenParts.map whenChunk) ++
                   "ELSE " ++ "? " ++ "END",
                 whatArgsOf d ++ (d.WhenParts.map whenArgsOf).flatten ++ [d.ElseValue],
                 none⟩) ∧
    (d.Else = none →
      ((((CaseBuilder.mk d).Else (GoAny.value v)).Else GoAny.nil).ToSql =
        ⟨"CASE " ++ whatChunk d ++ sjoin (d.WhenParts.map whenChunk) ++
           "ELSE " ++ "? " ++ "END",
         whatArgsOf d ++ (d.WhenParts.map whenArgsOf).flatten ++ [some v], none⟩)) := by
  refine ⟨⟨rfl, rfl, rfl, rfl, rfl⟩, ?_, ?_, ?_⟩
  · intro f hE hf
    unfold caseData.ToSql
    rw [if_neg (by simp [hne])]
    dsimp only
    rw [show sqlizerBuffer.WriteString ⟨"", [], none⟩ "CASE " =
      (⟨"CASE ", [], none⟩ : sqlizerBuffer) from rfl]
    rw [caseFront_char d "CASE " hwhat]
    rw [caseWhenLoop_char d.WhenParts _ _ hw]
    dsimp only
    rw [if_pos (by simp [hE]), hE]
    dsimp only [sqlizerBuffer.WriteString]
    rw [WriteSql_ok _ _ _ hf]
    simp [sqlizerBuffer.WriteString, String.append_assoc]
  · intro h1 h2
    exact caseToSql_else_value d hne hwhat hw h1 h2
  · intro h1
    exact caseToSql_else_value
      (((CaseBuilder.mk d).Else (GoAny.value v)).Else GoAny.nil).data
      hne hwhat hw h1 (Or.inr rfl)

/-- Witness for C10 at a concrete input: Else(7) then Else(nil) renders a
placeholder bound to 7, not to null. -/
theorem claim_C10_witness :
    (((CaseBuilder.mk ⟨none, [⟨Sqlizer.frag ⟨"x = 1", [], none⟩, none,
        some (GoVal.vint 2), false⟩], none, none, false⟩).Else
          (GoAny.value (GoVal.vint 7))).Else GoAny.nil).ToSql =
      ⟨"CASE WHEN x = 1 THEN ? ELSE ? END",
       [some (GoVal.vint 2), some (GoVal.vint 7)], none⟩ := by
  rw [(claim_C10 ⟨none, [⟨Sqlizer.frag ⟨"x = 1", [], none⟩, none,
      some (GoVal.vint 2), false⟩], none, none, false⟩ (GoVal.vint 7)
      (by decide) (by decide) (by decide)).2.2.2 rfl]
  decide

/-- Claim C8: `compactSQL` is idempotent, preserves non-whitespace content
and order, leaves no two adjacent whitespace characters and only plain-space
whitespace, and—on the union builder—runs as a post-pass after everything
else including placeholder rewriting: the compacted render is exactly the
uncompacted render with `compactSQL` applied to its text. -/
theorem claim_C8 :
    (∀ s : String, compactSQL (compactSQL s) = compactSQL s) ∧
    (∀ s : String, filterNS (compactSQL s).data = filterNS s.data) ∧
    (∀ s : String, noDoubleSpace (compactSQL s).data = true) ∧
    (∀ s : String, ∀ c ∈ (compactSQL s).data, isSpaceChar c = true → c = ' ') ∧
    (∀ d : unionData,
      (unionData.toSql { d with CompactOutput := true }).sql =
        compactSQL (unionData.toSql { d with CompactOutput := false }).sql ∧
      (unionData.toSql { d with CompactOutput := true }).args =
        (unionData.toSql { d with CompactOutput := false }).args ∧
      (unionData.toSql { d with CompactOutput := true }).err =
        (unionData.toSql { d with CompactOutput := false }).err) := by
  refine ⟨compactSQL_idem, ?_, ?_, ?_, ?_⟩
  · intro s
    show filterNS (joinSpace (fieldsAux s.data [])) = filterNS s.data
    rw [filterNS_fieldsAux s.data [] (by simp)]
    simp
  · intro s
    exact noDoubleSpace_joinSpace _ (fieldsAux_ok s.data [] (by simp))
  · intro s
    exact joinSpace_spaces _ (fieldsAux_ok s.data [] (by simp))
  · intro d
    have h := unionToSql_compact_split d
    exact ⟨by rw [h], by rw [h], by rw [h]⟩

/-- Witness for C8 at concrete inputs: idempotence, content preservation and
the single-space shape on a messy string, and the post-pass relation on a
concrete compacted union render. -/
theorem claim_C8_witness :
    compactSQL (compactSQL "  a \n b ") = compactSQL "  a \n b " ∧
    filterNS (compactSQL "  a \n b ").data = filterNS ("  a \n b " : String).data ∧
    noDoubleSpace (compactSQL "  a \n b ").data = true ∧
    (' ' = ' ') ∧
    (unionData.toSql { (Union [Sqlizer.frag ⟨"SELECT  1", [], none⟩]).data with
        CompactOutput := true }).sql =
      compactSQL (unionData.toSql
        { (Union [Sqlizer.frag ⟨"SELECT  1", [], none⟩]).data with
          CompactOutput := false }).sql :=
  ⟨claim_C8.1 "  a \n b ",
   claim_C8.2.1 "  a \n b ",
   claim_C8.2.2.1 "  a \n b ",
   claim_C8.2.2.2.1 "  a \n b " ' ' (by decide) (by decide),
   (claim_C8.2.2.2.2 (Union [Sqlizer.frag ⟨"SELECT  1", [], none⟩]).data).1⟩

/-- Witness for C7 at a concrete input: a two-segment union whose second
segment fails with "boom" reports index 1 and returns empty output. -/
theorem claim_C7_witness :
    (Union [Sqlizer.frag ⟨"x", [], none⟩, Sqlizer.frag ⟨"", [], some "boom"⟩]).data.toSql =
      ⟨"", [], some "squirrel: union subquery 1: boom"⟩ := by
  have h := claim_C7
    (Union [Sqlizer.frag ⟨"x", [], none⟩, Sqlizer.frag ⟨"", [], some "boom"⟩]).data
    [⟨"", Sqlizer.frag ⟨"x", [], none⟩⟩] ⟨unionDistinct, Sqlizer.frag ⟨"", [], some "boom"⟩⟩
    [] "boom" rfl (by decide) rfl
  rw [h]
  decide

end squirrel
